import Mathlib

/-!
Shallow embedding of `src/engine/engine.js` from the ic-quickjs-demo
repository.

The source file implements the bookkeeping layer for outgoing calls of a
canister: a registry of call contexts (`call_contexts`), a registry of
callbacks for outgoing calls (`callbacks`), two 31-bit identifier cursors
(`call_context_id`, `callback_id`), and the pointer to the currently
active call context (`entered_call_context`).

Modelling decisions, each mirroring the JavaScript directly:

* The two `Map`s are modelled as association lists with JavaScript `Map`
  semantics (`mapGet`, `mapSet`, `mapDelete`); object mutation through an
  aliased reference (`entered_call_context.replied = null`,
  `call_context.pending_calls -= 1`) is modelled as an in-place update of
  the registry entry under the object's key (`mapUpdate`), which is
  faithful because every context object the source mutates is reached
  through a `call_contexts` lookup or has just been inserted there.
* The active pointer `entered_call_context` holds the key of the context
  object it references (or `none` for `null`/`undefined`).
* JavaScript numbers holding `pending_calls` are modelled as `Int`;
  identifiers, which the source keeps in `[0, 2^31)` via `& MAX_ID_MASK`,
  as `Nat`.
* Payload values (arguments, reply values) are opaque to the engine; they
  are modelled as `Int`.
* The unbounded `do {...} while` searches for a free identifier are
  modelled with fuel `ID_SPACE = 2^31`, one full cycle of the identifier
  space: the JavaScript loop terminates exactly when a free identifier
  exists in that cycle, and then both return the same identifier.
* A thrown TypeError (property access on `undefined`/`null`) is modelled
  as an error result; every operation returns the state at the moment the
  exception escapes together with an `Except` outcome, since the host
  observes both.
* User code (the endpoint method run by `executeEndpoint`, and the
  promise continuations resumed by invoking a stored `reply`/`reject`
  closure) runs outside this layer.  Its engine-visible effects are the
  entry-point calls it makes, which appear as separate actions of a
  trace; the `Promise.resolve(result).then(...)` job that `executeEndpoint`
  installs is the `settleResultOk`/`settleResultErr` action, writing into
  whichever context is active when the job runs, exactly as in the source.
-/

/-- Payload values are opaque to the engine. -/
abbrev Value := Int

/-- One call context record, as built by `newCallContext`:
`{ id, replied: null, rejected: null, pending_calls: 0 }`. -/
structure CallContext where
  id : Nat
  replied : Option Value
  rejected : Option Value
  pending_calls : Int
deriving DecidableEq

/-- One callback record, as built by `createCallback`.  The stored
`promise`, `reply` and `reject` closures belong to user code and carry no
engine state; only `call_context_id` is engine-visible. -/
structure Callback where
  call_context_id : Nat
deriving DecidableEq

/-- Ways an entry point can fail (a thrown TypeError in the source, or a
diverging identifier search). -/
inductive EngineError where
  | unknownContinuation
  | noActiveContext
  | staleOwnerContext
  | identifierSpaceExhausted
deriving DecidableEq

instance : DecidableEq (Except EngineError Nat) := fun a b =>
  match a, b with
  | .ok x, .ok y => if h : x = y then .isTrue (by rw [h]) else .isFalse (by simp [h])
  | .error x, .error y => if h : x = y then .isTrue (by rw [h]) else .isFalse (by simp [h])
  | .ok _, .error _ => .isFalse (by simp)
  | .error _, .ok _ => .isFalse (by simp)

/-- The module-level mutable state of `engine.js`. -/
structure EngineState where
  call_context_id : Nat
  call_contexts : List (Nat × CallContext)
  callback_id : Nat
  callbacks : List (Nat × Callback)
  entered_call_context : Option Nat
deriving DecidableEq

/-- The state at module load time. -/
def initState : EngineState :=
  { call_context_id := 0
    call_contexts := []
    callback_id := 0
    callbacks := []
    entered_call_context := none }

/-- `const MAX_ID_MASK = 0x7FFF_FFFF`. -/
def MAX_ID_MASK : Nat := 0x7FFFFFFF

/-- Size of the identifier space, used as fuel for the id search loops. -/
def ID_SPACE : Nat := MAX_ID_MASK + 1

/-- JavaScript `Map.get`. -/
def mapGet {A : Type} (m : List (Nat × A)) (k : Nat) : Option A :=
  match m with
  | [] => none
  | (k0, v0) :: rest => if k0 = k then some v0 else mapGet rest k

/-- JavaScript `Map.set`. -/
def mapSet {A : Type} (m : List (Nat × A)) (k : Nat) (v : A) : List (Nat × A) :=
  match m with
  | [] => [(k, v)]
  | (k0, v0) :: rest => if k0 = k then (k, v) :: rest else (k0, v0) :: mapSet rest k v

/-- JavaScript `Map.delete`. -/
def mapDelete {A : Type} (m : List (Nat × A)) (k : Nat) : List (Nat × A) :=
  m.filter (fun p => p.1 != k)

/-- Mutation of the (unique) entry stored under key `k`, modelling a field
assignment through an aliased reference to that entry's object. -/
def mapUpdate {A : Type} (m : List (Nat × A)) (k : Nat) (f : A → A) : List (Nat × A) :=
  match m with
  | [] => []
  | (k0, v0) :: rest => (if k0 = k then (k0, f v0) else (k0, v0)) :: mapUpdate rest k f

/-- The `do { id = (id + 1) & MAX_ID_MASK } while (registry.get(id))`
search, with fuel.  Fuel `ID_SPACE` covers one full cycle of the
identifier space, after which the source loop would run forever. -/
def findFreeFrom {A : Type} (m : List (Nat × A)) (cur : Nat) : Nat → Option Nat
  | 0 => none
  | fuel + 1 =>
    let c := (cur + 1) &&& MAX_ID_MASK
    match mapGet m c with
    | some _ => findFreeFrom m c fuel
    | none => some c

/-- Clearing of the two outcome fields performed on the newly entered
context (`entered_call_context.replied = null; entered_call_context.rejected = null`). -/
def resetOutcome (c : CallContext) : CallContext :=
  { c with replied := none, rejected := none }

/-- First half of `enterCallContext`: if some context is active and it is
not the one being entered, and it has no pending outgoing calls, delete it
from `call_contexts`. -/
def evictIdlePrev (s : EngineState) (ctx? : Option Nat) : List (Nat × CallContext) :=
  match s.entered_call_context with
  | some prev =>
    if ctx? ≠ some prev then
      match mapGet s.call_contexts prev with
      | some prevCtx =>
        if prevCtx.pending_calls = 0 then mapDelete s.call_contexts prev
        else s.call_contexts
      | none => s.call_contexts
    else s.call_contexts
  | none => s.call_contexts

/-- `enterCallContext(call_context)`.  The argument is the key of the
context object passed in, or `none` when the caller passed `undefined`
(a missed `call_contexts.get`).  In the `none` case the source still runs
the eviction check and the assignment `entered_call_context = undefined`,
and then throws a TypeError at `entered_call_context.replied = null`; the
`Bool` result records whether the body completed without throwing. -/
def enterCallContext (s : EngineState) (ctx? : Option Nat) : EngineState × Bool :=
  let ctxs := evictIdlePrev s ctx?
  match ctx? with
  | some c =>
    ({ s with call_contexts := mapUpdate ctxs c resetOutcome
              entered_call_context := some c }, true)
  | none =>
    ({ s with call_contexts := ctxs
              entered_call_context := none }, false)

/-- `newCallContext()`: insert a fresh context under the cursor, then
advance the cursor to the next free identifier. -/
def newCallContext (s : EngineState) : EngineState × Except EngineError Nat :=
  let new_call_context : CallContext :=
    { id := s.call_context_id, replied := none, rejected := none, pending_calls := 0 }
  let ctxs := mapSet s.call_contexts s.call_context_id new_call_context
  match findFreeFrom ctxs s.call_context_id ID_SPACE with
  | some next =>
    ({ s with call_contexts := ctxs, call_context_id := next }, .ok new_call_context.id)
  | none => (s, .error .identifierSpaceExhausted)

/-- `executeEndpoint(method, ...args)`: create and enter a new call
context, run the method, and return the entered context.  The method body
is user code; its engine-visible calls are separate actions of a trace,
and the `Promise.resolve(result).then(...)` settlement job it installs is
the `settleReplied`/`settleRejected` action. -/
def executeEndpoint (s : EngineState) : EngineState × Except EngineError Nat :=
  match newCallContext s with
  | (s1, .ok call_context) => ((enterCallContext s1 (some call_context)).1, .ok call_context)
  | (s1, .error e) => (s1, .error e)

/-- The success job installed by `executeEndpoint`:
`(r) => entered_call_context.replied = r`, writing into whichever context
is active when the promise settles.  When no context is active the source
job would throw on `null`; no engine state changes either way. -/
def settleReplied (s : EngineState) (v : Value) : EngineState :=
  match s.entered_call_context with
  | some c =>
    { s with call_contexts := mapUpdate s.call_contexts c (fun ctx => { ctx with replied := some v }) }
  | none => s

/-- The failure job installed by `executeEndpoint`:
`(e) => entered_call_context.rejected = e`. -/
def settleRejected (s : EngineState) (v : Value) : EngineState :=
  match s.entered_call_context with
  | some c =>
    { s with call_contexts := mapUpdate s.call_contexts c (fun ctx => { ctx with rejected := some v }) }
  | none => s

/-- `executeReplyCallback(callback_id, ...args)`.  With an unknown id the
source throws a TypeError at `callback.call_context_id` with nothing
mutated (`Map.delete` of an absent key is a no-op).  Otherwise the
callback entry is removed, the owner context is entered, its
`pending_calls` is decremented, and the stored `reply` closure is invoked
(resolving the stored promise; the user code it resumes runs as later
actions).  The function returns `entered_call_context`, which at the
point of the `reply` invocation and at the return is the owner. -/
def executeReplyCallback (s : EngineState) (cb_id : Nat) : EngineState × Except EngineError Nat :=
  match mapGet s.callbacks cb_id with
  | none => (s, .error .unknownContinuation)
  | some callback =>
    let s1 := { s with callbacks := mapDelete s.callbacks cb_id }
    match mapGet s1.call_contexts callback.call_context_id with
    | none =>
      ((enterCallContext s1 none).1, .error .staleOwnerContext)
    | some _ =>
      let s2 := (enterCallContext s1 (some callback.call_context_id)).1
      let ctxs := mapUpdate s2.call_contexts callback.call_context_id
        (fun c => { c with pending_calls := c.pending_calls - 1 })
      ({ s2 with call_contexts := ctxs }, .ok callback.call_context_id)

/-- `executeRejectCallback(callback_id, ...args)`: identical bookkeeping,
invoking the stored `reject` closure instead of `reply`. -/
def executeRejectCallback (s : EngineState) (cb_id : Nat) : EngineState × Except EngineError Nat :=
  match mapGet s.callbacks cb_id with
  | none => (s, .error .unknownContinuation)
  | some callback =>
    let s1 := { s with callbacks := mapDelete s.callbacks cb_id }
    match mapGet s1.call_contexts callback.call_context_id with
    | none =>
      ((enterCallContext s1 none).1, .error .staleOwnerContext)
    | some _ =>
      let s2 := (enterCallContext s1 (some callback.call_context_id)).1
      let ctxs := mapUpdate s2.call_contexts callback.call_context_id
        (fun c => { c with pending_calls := c.pending_calls - 1 })
      ({ s2 with call_contexts := ctxs }, .ok callback.call_context_id)

/-- `createCallback()`.  With no active context the source throws a
TypeError at `entered_call_context.id` before any mutation.  Otherwise a
callback owned by the active context is stored under the cursor, the
active context's `pending_calls` is incremented, and the cursor advances
to the next free identifier; the callback id is returned. -/
def createCallback (s : EngineState) : EngineState × Except EngineError Nat :=
  match s.entered_call_context with
  | none => (s, .error .noActiveContext)
  | some eid =>
    let callback : Callback := { call_context_id := eid }
    let cbs := mapSet s.callbacks s.callback_id callback
    let ctxs := mapUpdate s.call_contexts eid
      (fun c => { c with pending_calls := c.pending_calls + 1 })
    let result := s.callback_id
    match findFreeFrom cbs s.callback_id ID_SPACE with
    | some next =>
      ({ s with callbacks := cbs, call_contexts := ctxs, callback_id := next }, .ok result)
    | none => (s, .error .identifierSpaceExhausted)

/-- `removeCallback(callback_id)`: delete the callback entry.  Note that
the source does not touch the owner's `pending_calls`. -/
def removeCallback (s : EngineState) (cb_id : Nat) : EngineState :=
  { s with callbacks := mapDelete s.callbacks cb_id }

/-- `getEnteredCallContext()`: the active-context pointer. -/
def getEnteredCallContext (s : EngineState) : Option Nat :=
  s.entered_call_context

/-- One atomic engine step of a trace: an entry-point call by the host or
by user code, or the run of the settlement job installed by
`executeEndpoint`. -/
inductive EngineAction where
  | callEndpoint
  | settleResultOk (v : Value)
  | settleResultErr (v : Value)
  | deliverReply (k : Nat)
  | deliverReject (k : Nat)
  | issueCall
  | abandonCall (k : Nat)

/-- The state after performing one action (on an error, the state at the
moment the exception escapes to the caller). -/
def step (s : EngineState) : EngineAction → EngineState
  | .callEndpoint => (executeEndpoint s).1
  | .settleResultOk v => settleReplied s v
  | .settleResultErr v => settleRejected s v
  | .deliverReply k => (executeReplyCallback s k).1
  | .deliverReject k => (executeRejectCallback s k).1
  | .issueCall => (createCallback s).1
  | .abandonCall k => removeCallback s k

/-- States reachable from module load by a sequence of actions. -/
inductive Reachable : EngineState → Prop where
  | base : Reachable initState
  | next (s : EngineState) (a : EngineAction) (h : Reachable s) : Reachable (step s a)

/-- Number of callbacks registered for owner context `c`. -/
def ownedCount (cbs : List (Nat × Callback)) (c : Nat) : Nat :=
  (cbs.filter (fun p => p.2.call_context_id == c)).length


/-- Invariant satisfied by every reachable state: the two cursors point at
free keys, keys are unique, the active pointer and every callback's owner
resolve in `call_contexts`, each context's `pending_calls` dominates the
number of callbacks registered against it, and the active pointer is
`none` only in the pristine initial state. -/
structure EngineInv (s : EngineState) : Prop where
  cursor_free : mapGet s.call_contexts s.call_context_id = none
  cb_cursor_free : mapGet s.callbacks s.callback_id = none
  ctx_nodup : (s.call_contexts.map Prod.fst).Nodup
  cb_nodup : (s.callbacks.map Prod.fst).Nodup
  entered_in : ∀ c, s.entered_call_context = some c → mapGet s.call_contexts c ≠ none
  owner_alive : ∀ p ∈ s.callbacks, mapGet s.call_contexts p.2.call_context_id ≠ none
  pending_bound : ∀ k ctx, mapGet s.call_contexts k = some ctx →
    (ownedCount s.callbacks k : Int) ≤ ctx.pending_calls
  pristine : s.entered_call_context = none → s = initState

/-- Scenario for the identifier-reuse claim: one `executeEndpoint` call
followed by `n` `createCallback` allocations. -/
def c7alloc : Nat → EngineState
  | 0 => step initState .callEndpoint
  | n + 1 => step (c7alloc n) .issueCall

/-- From `c7alloc N`, free the N callbacks in descending order of id:
`c7free N k` has freed ids `N-1 ... N-k`. -/
def c7free (N : Nat) : Nat → EngineState
  | 0 => c7alloc N
  | k + 1 => step (c7free N k) (.abandonCall (N - (k + 1)))

/-- From `c7free N N` (everything freed), allocate again: `c7reall N k`
has performed `k` further `createCallback` calls. -/
def c7reall (N : Nat) : Nat → EngineState
  | 0 => c7free N N
  | k + 1 => step (c7reall N k) .issueCall

/-- The callback registry holding ids `base .. base+n-1`, all owned by
call context 0. -/
def cbRun (base n : Nat) : List (Nat × Callback) :=
  (List.range n).map (fun i => (base + i, ⟨0⟩))

/-! ### Association-list lemmas -/

theorem mapGet_set_self {A : Type} (m : List (Nat × A)) (k : Nat) (v : A) :
    mapGet (mapSet m k v) k = some v := by
  induction m with
  | nil => simp [mapSet, mapGet]
  | cons p rest ih =>
    obtain ⟨k0, v0⟩ := p
    by_cases h : k0 = k
    · simp [mapSet, h, mapGet]
    · simp [mapSet, h, mapGet, ih]

theorem mapGet_set_ne {A : Type} (m : List (Nat × A)) (k : Nat) (v : A) (j : Nat)
    (hj : j ≠ k) : mapGet (mapSet m k v) j = mapGet m j := by
  induction m with
  | nil => simp [mapSet, mapGet, Ne.symm hj]
  | cons p rest ih =>
    obtain ⟨k0, v0⟩ := p
    by_cases h : k0 = k
    · subst h
      simp [mapSet, mapGet, Ne.symm hj]
    · simp [mapSet, h, mapGet, ih]

theorem mapGet_delete_self {A : Type} (m : List (Nat × A)) (k : Nat) :
    mapGet (mapDelete m k) k = none := by
  induction m with
  | nil => simp [mapDelete, mapGet]
  | cons p rest ih =>
    obtain ⟨k0, v0⟩ := p
    by_cases h : k0 = k
    · simpa [mapDelete, List.filter_cons, h] using ih
    · simpa [mapDelete, List.filter_cons, h, mapGet] using ih

theorem mapGet_delete_ne {A : Type} (m : List (Nat × A)) (k : Nat) (j : Nat)
    (hj : j ≠ k) : mapGet (mapDelete m k) j = mapGet m j := by
  induction m with
  | nil => simp [mapDelete, mapGet]
  | cons p rest ih =>
    obtain ⟨k0, v0⟩ := p
    by_cases h : k0 = k
    · subst h
      simpa [mapDelete, List.filter_cons, mapGet, Ne.symm hj] using ih
    · by_cases h2 : k0 = j
      · simp [mapDelete, List.filter_cons, h, mapGet, h2, hj]
      · simpa [mapDelete, List.filter_cons, h, mapGet, h2] using ih

theorem mapUpdate_cons {A : Type} (k0 : Nat) (v0 : A) (rest : List (Nat × A))
    (k : Nat) (f : A → A) :
    mapUpdate ((k0, v0) :: rest) k f =
      (if k0 = k then (k0, f v0) else (k0, v0)) :: mapUpdate rest k f := rfl

theorem mapGet_update_self {A : Type} (m : List (Nat × A)) (k : Nat) (f : A → A) :
    mapGet (mapUpdate m k f) k = (mapGet m k).map f := by
  induction m with
  | nil => simp [mapUpdate, mapGet]
  | cons p rest ih =>
    obtain ⟨k0, v0⟩ := p
    rw [mapUpdate_cons]
    by_cases h : k0 = k
    · rw [if_pos h]
      simp [mapGet, h]
    · rw [if_neg h]
      simp [mapGet, h, ih]

theorem mapGet_update_ne {A : Type} (m : List (Nat × A)) (k : Nat) (f : A → A) (j : Nat)
    (hj : j ≠ k) : mapGet (mapUpdate m k f) j = mapGet m j := by
  induction m with
  | nil => simp [mapUpdate, mapGet]
  | cons p rest ih =>
    obtain ⟨k0, v0⟩ := p
    rw [mapUpdate_cons]
    by_cases h : k0 = k
    · rw [if_pos h]
      subst h
      simp [mapGet, Ne.symm hj, ih]
    · rw [if_neg h]
      by_cases h2 : k0 = j
      · simp [mapGet, h2]
      · simp [mapGet, h2, ih]

theorem mapGet_update_none {A : Type} (m : List (Nat × A)) (k : Nat) (f : A → A) (j : Nat) :
    mapGet (mapUpdate m k f) j = none ↔ mapGet m j = none := by
  by_cases h : j = k
  · subst h
    rw [mapGet_update_self]
    exact Option.map_eq_none'
  · rw [mapGet_update_ne m k f j h]

theorem keys_mapUpdate {A : Type} (m : List (Nat × A)) (k : Nat) (f : A → A) :
    (mapUpdate m k f).map Prod.fst = m.map Prod.fst := by
  induction m with
  | nil => rfl
  | cons p rest ih =>
    obtain ⟨k0, v0⟩ := p
    by_cases h : k0 = k <;> simp [mapUpdate, h, ih]

theorem mem_keys_mapSet {A : Type} (m : List (Nat × A)) (k : Nat) (v : A) (j : Nat)
    (hj : j ∈ (mapSet m k v).map Prod.fst) : j ∈ m.map Prod.fst ∨ j = k := by
  induction m with
  | nil => simpa [mapSet] using hj
  | cons p rest ih =>
    obtain ⟨k0, v0⟩ := p
    by_cases h : k0 = k
    · subst h
      rcases (by simpa [mapSet] using hj : j = k0 ∨ j ∈ rest.map Prod.fst) with h1 | h1
      · exact Or.inr h1
      · exact Or.inl (by simp [h1])
    · rcases (by simpa [mapSet, h] using hj : j = k0 ∨ j ∈ (mapSet rest k v).map Prod.fst) with h1 | h1
      · exact Or.inl (by simp [h1])
      · rcases ih h1 with h2 | h2
        · exact Or.inl (by simp; right; simpa using h2)
        · exact Or.inr h2

theorem nodup_mapSet {A : Type} (m : List (Nat × A)) (k : Nat) (v : A)
    (h : (m.map Prod.fst).Nodup) : ((mapSet m k v).map Prod.fst).Nodup := by
  induction m with
  | nil => simp [mapSet]
  | cons p rest ih =>
    obtain ⟨k0, v0⟩ := p
    rw [List.map_cons, List.nodup_cons] at h
    by_cases hk : k0 = k
    · subst hk
      simpa [mapSet] using h
    · have hset : mapSet ((k0, v0) :: rest) k v = (k0, v0) :: mapSet rest k v := by
        simp [mapSet, hk]
      rw [hset, List.map_cons, List.nodup_cons]
      refine ⟨?_, ih h.2⟩
      intro hmem
      rcases mem_keys_mapSet rest k v k0 hmem with h1 | h1
      · exact h.1 h1
      · exact hk h1

theorem nodup_mapDelete {A : Type} (m : List (Nat × A)) (k : Nat)
    (h : (m.map Prod.fst).Nodup) : ((mapDelete m k).map Prod.fst).Nodup := by
  exact h.sublist ((List.filter_sublist m).map Prod.fst)

theorem findFreeFrom_free {A : Type} (m : List (Nat × A)) (c : Nat) :
    ∀ (fuel cur : Nat), findFreeFrom m cur fuel = some c → mapGet m c = none := by
  intro fuel
  induction fuel with
  | zero => intro cur h; simp [findFreeFrom] at h
  | succ n ih =>
    intro cur h
    rw [findFreeFrom] at h
    rcases hg : mapGet m ((cur + 1) &&& MAX_ID_MASK) with _ | v
    · rw [hg] at h
      simp only [Option.some.injEq] at h
      rwa [← h]
    · rw [hg] at h
      exact ih _ h

theorem mapSet_eq_append {A : Type} (m : List (Nat × A)) (k : Nat) (v : A)
    (h : mapGet m k = none) : mapSet m k v = m ++ [(k, v)] := by
  induction m with
  | nil => rfl
  | cons p rest ih =>
    obtain ⟨k0, v0⟩ := p
    rw [mapGet] at h
    by_cases hk : k0 = k
    · simp [hk] at h
    · rw [if_neg hk] at h
      simp [mapSet, hk, ih h]

theorem mapGet_some_mem {A : Type} (m : List (Nat × A)) (k : Nat) (v : A)
    (h : mapGet m k = some v) : (k, v) ∈ m := by
  induction m with
  | nil => simp [mapGet] at h
  | cons p rest ih =>
    obtain ⟨k0, v0⟩ := p
    rw [mapGet] at h
    by_cases hk : k0 = k
    · subst hk
      rw [if_pos rfl] at h
      simp only [Option.some.injEq] at h
      simp [h]
    · rw [if_neg hk] at h
      exact List.mem_cons_of_mem _ (ih h)

theorem mem_mapSet {A : Type} (m : List (Nat × A)) (k : Nat) (v : A) (p : Nat × A)
    (h : p ∈ mapSet m k v) : p ∈ m ∨ p = (k, v) := by
  induction m with
  | nil => simpa [mapSet] using h
  | cons q rest ih =>
    obtain ⟨k0, v0⟩ := q
    by_cases hk : k0 = k
    · subst hk
      rcases (by simpa [mapSet] using h : p = (k0, v) ∨ p ∈ rest) with h1 | h1
      · exact Or.inr h1
      · exact Or.inl (List.mem_cons_of_mem _ h1)
    · rcases (by simpa [mapSet, hk] using h : p = (k0, v0) ∨ p ∈ mapSet rest k v) with h1 | h1
      · exact Or.inl (by simp [h1])
      · rcases ih h1 with h2 | h2
        · exact Or.inl (List.mem_cons_of_mem _ h2)
        · exact Or.inr h2

theorem mem_mapDelete {A : Type} (m : List (Nat × A)) (k : Nat) (p : Nat × A)
    (h : p ∈ mapDelete m k) : p ∈ m :=
  List.mem_of_mem_filter h

theorem mapDelete_of_forall_ne {A : Type} (m : List (Nat × A)) (k : Nat)
    (h : ∀ p ∈ m, p.1 ≠ k) : mapDelete m k = m := by
  refine List.filter_eq_self.mpr ?_
  intro p hp
  simpa using h p hp

/-! ### Counting callbacks per owner context -/

theorem ownedCount_append (m1 m2 : List (Nat × Callback)) (c : Nat) :
    ownedCount (m1 ++ m2) c = ownedCount m1 c + ownedCount m2 c := by
  simp [ownedCount, List.filter_append]

theorem ownedCount_single (k : Nat) (cb : Callback) (c : Nat) :
    ownedCount [(k, cb)] c = if cb.call_context_id = c then 1 else 0 := by
  by_cases h : cb.call_context_id = c <;>
    simp [ownedCount, List.filter_cons, beq_iff_eq, h]

theorem ownedCount_set_fresh (m : List (Nat × Callback)) (k : Nat) (cb : Callback) (c : Nat)
    (h : mapGet m k = none) :
    ownedCount (mapSet m k cb) c = ownedCount m c + (if cb.call_context_id = c then 1 else 0) := by
  rw [mapSet_eq_append m k cb h, ownedCount_append, ownedCount_single]

theorem ownedCount_delete_le (m : List (Nat × Callback)) (k : Nat) (c : Nat) :
    ownedCount (mapDelete m k) c ≤ ownedCount m c :=
  ((List.filter_sublist m).filter _).length_le

theorem ownedCount_delete_get (m : List (Nat × Callback)) (k : Nat) (cb : Callback) (c : Nat)
    (hnd : (m.map Prod.fst).Nodup) (h : mapGet m k = some cb) :
    ownedCount m c = ownedCount (mapDelete m k) c + (if cb.call_context_id = c then 1 else 0) := by
  induction m with
  | nil => simp [mapGet] at h
  | cons p rest ih =>
    obtain ⟨k0, v0⟩ := p
    rw [List.map_cons, List.nodup_cons] at hnd
    rw [mapGet] at h
    by_cases hk : k0 = k
    · subst hk
      rw [if_pos rfl] at h
      simp only [Option.some.injEq] at h
      subst h
      have hrest : mapDelete rest k0 = rest := by
        refine mapDelete_of_forall_ne rest k0 ?_
        intro p hp hpk
        exact hnd.1 (List.mem_map.mpr ⟨p, hp, hpk⟩)
      have hdel : mapDelete ((k0, v0) :: rest) k0 = rest := by
        have h2 : mapDelete ((k0, v0) :: rest) k0 = mapDelete rest k0 := by
          simp [mapDelete, List.filter_cons]
        rw [h2, hrest]
      have h3 : ownedCount ((k0, v0) :: rest) c
          = (if v0.call_context_id = c then 1 else 0) + ownedCount rest c := by
        by_cases hc : v0.call_context_id = c <;>
          simp [ownedCount, List.filter_cons, beq_iff_eq, hc] <;> omega
      rw [hdel, h3]
      omega
    · rw [if_neg hk] at h
      have hdel : mapDelete ((k0, v0) :: rest) k = (k0, v0) :: mapDelete rest k := by
        simp [mapDelete, List.filter_cons, hk]
      have h1 : ownedCount ((k0, v0) :: rest) c
          = (if v0.call_context_id = c then 1 else 0) + ownedCount rest c := by
        by_cases hc : v0.call_context_id = c <;>
          simp [ownedCount, List.filter_cons, beq_iff_eq, hc] <;> omega
      have h2 : ownedCount ((k0, v0) :: mapDelete rest k) c
          = (if v0.call_context_id = c then 1 else 0) + ownedCount (mapDelete rest k) c := by
        by_cases hc : v0.call_context_id = c <;>
          simp [ownedCount, List.filter_cons, beq_iff_eq, hc] <;> omega
      rw [hdel, h1, h2, ih hnd.2 h]
      omega

theorem ownedCount_pos (m : List (Nat × Callback)) (k : Nat) (cb : Callback)
    (h : mapGet m k = some cb) : 1 ≤ ownedCount m cb.call_context_id := by
  have hmem : (k, cb) ∈ m := mapGet_some_mem m k cb h
  have : (k, cb) ∈ m.filter (fun p => p.2.call_context_id == cb.call_context_id) :=
    List.mem_filter.mpr ⟨hmem, by simp⟩
  have hne : m.filter (fun p => p.2.call_context_id == cb.call_context_id) ≠ [] :=
    List.ne_nil_of_mem this
  have := List.length_pos.mpr hne
  simpa [ownedCount] using this

theorem ownedCount_eq_zero (m : List (Nat × Callback)) (c : Nat)
    (h : ownedCount m c = 0) : ∀ p ∈ m, p.2.call_context_id ≠ c := by
  intro p hp
  have hnil : m.filter (fun p => p.2.call_context_id == c) = [] :=
    List.length_eq_zero.mp h
  have := List.filter_eq_nil_iff.mp hnil p hp
  simpa using this

/-! ### Shape lemmas for `enterCallContext` -/

theorem enter_some_fst (s : EngineState) (c : Nat) :
    (enterCallContext s (some c)).1 =
      { s with call_contexts := mapUpdate (evictIdlePrev s (some c)) c resetOutcome
               entered_call_context := some c } := rfl

theorem enter_none_fst (s : EngineState) :
    (enterCallContext s none).1 =
      { s with call_contexts := evictIdlePrev s none
               entered_call_context := none } := rfl

theorem evictIdlePrev_cases (s : EngineState) (t : Option Nat) :
    evictIdlePrev s t = s.call_contexts ∨
      ∃ prev prevCtx, s.entered_call_context = some prev ∧ t ≠ some prev ∧
        mapGet s.call_contexts prev = some prevCtx ∧ prevCtx.pending_calls = 0 ∧
        evictIdlePrev s t = mapDelete s.call_contexts prev := by
  unfold evictIdlePrev
  cases he : s.entered_call_context with
  | none => exact Or.inl rfl
  | some prev =>
    by_cases ht : t = some prev
    · simp [ht]
    · cases hg : mapGet s.call_contexts prev with
      | none => simp [ht, hg]
      | some prevCtx =>
        by_cases hp : prevCtx.pending_calls = 0
        · right
          exact ⟨prev, prevCtx, rfl, ht, hg, hp, by simp [ht, hg, hp]⟩
        · simp [ht, hg, hp]

theorem evictIdlePrev_none_mono (s : EngineState) (t : Option Nat) (j : Nat)
    (h : mapGet s.call_contexts j = none) : mapGet (evictIdlePrev s t) j = none := by
  rcases evictIdlePrev_cases s t with h1 | ⟨prev, prevCtx, _, _, _, _, h1⟩
  · rw [h1]; exact h
  · rw [h1]
    by_cases hj : j = prev
    · subst hj; exact mapGet_delete_self _ _
    · rw [mapGet_delete_ne _ _ _ hj]; exact h

theorem evictIdlePrev_keeps_target (s : EngineState) (c : Nat) :
    mapGet (evictIdlePrev s (some c)) c = mapGet s.call_contexts c := by
  rcases evictIdlePrev_cases s (some c) with h1 | ⟨prev, prevCtx, _, ht, _, _, h1⟩
  · rw [h1]
  · rw [h1]
    have : c ≠ prev := fun h => ht (by rw [h])
    rw [mapGet_delete_ne _ _ _ this]

theorem evictIdlePrev_nodup (s : EngineState) (t : Option Nat)
    (h : (s.call_contexts.map Prod.fst).Nodup) :
    ((evictIdlePrev s t).map Prod.fst).Nodup := by
  rcases evictIdlePrev_cases s t with h1 | ⟨prev, _, _, _, _, _, h1⟩
  · rw [h1]; exact h
  · rw [h1]; exact nodup_mapDelete _ _ h

theorem ownedCount_eq_zero_of (m : List (Nat × Callback)) (c : Nat)
    (h : ∀ p ∈ m, p.2.call_context_id ≠ c) : ownedCount m c = 0 := by
  have : m.filter (fun p => p.2.call_context_id == c) = [] := by
    refine List.filter_eq_nil_iff.mpr ?_
    intro p hp
    simpa using h p hp
  simp [ownedCount, this]

/-! ### The inductive invariant of the engine state -/

theorem engineInv_init : EngineInv initState := by
  refine ⟨rfl, rfl, ?_, ?_, ?_, ?_, ?_, ?_⟩
  · simp [initState]
  · simp [initState]
  · intro c h
    simp [initState] at h
  · intro p hp
    simp [initState] at hp
  · intro k ctx h
    simp [initState, mapGet] at h
  · intro _
    rfl


/-! ### Case characterizations of the entry points -/

theorem evictIdlePrev_congr (s s' : EngineState) (t : Option Nat)
    (h1 : s.call_contexts = s'.call_contexts)
    (h2 : s.entered_call_context = s'.entered_call_context) :
    evictIdlePrev s t = evictIdlePrev s' t := by
  unfold evictIdlePrev
  rw [h1, h2]

theorem executeEndpoint_shape (s : EngineState) :
    (∃ next,
      findFreeFrom (mapSet s.call_contexts s.call_context_id
          ⟨s.call_context_id, none, none, 0⟩) s.call_context_id ID_SPACE = some next ∧
      executeEndpoint s =
        ((enterCallContext
            { s with call_contexts := mapSet s.call_contexts s.call_context_id ⟨s.call_context_id, none, none, 0⟩, call_context_id := next }
            (some s.call_context_id)).1,
          Except.ok s.call_context_id)) ∨
    (findFreeFrom (mapSet s.call_contexts s.call_context_id
        ⟨s.call_context_id, none, none, 0⟩) s.call_context_id ID_SPACE = none ∧
      executeEndpoint s = (s, Except.error EngineError.identifierSpaceExhausted)) := by
  cases hf : findFreeFrom (mapSet s.call_contexts s.call_context_id
      ⟨s.call_context_id, none, none, 0⟩) s.call_context_id ID_SPACE with
  | none =>
    right
    exact ⟨rfl, by simp [executeEndpoint, newCallContext, hf]⟩
  | some next =>
    left
    exact ⟨next, rfl, by simp [executeEndpoint, newCallContext, hf]⟩

theorem executeReplyCallback_shape (s : EngineState) (k : Nat) :
    (mapGet s.callbacks k = none ∧
      executeReplyCallback s k = (s, Except.error EngineError.unknownContinuation)) ∨
    (∃ cb, mapGet s.callbacks k = some cb ∧
      mapGet s.call_contexts cb.call_context_id = none ∧
      executeReplyCallback s k =
        ({ s with callbacks := mapDelete s.callbacks k
                  call_contexts := evictIdlePrev s none
                  entered_call_context := none },
          Except.error EngineError.staleOwnerContext)) ∨
    (∃ cb ctx, mapGet s.callbacks k = some cb ∧
      mapGet s.call_contexts cb.call_context_id = some ctx ∧
      executeReplyCallback s k =
        ({ s with callbacks := mapDelete s.callbacks k
                  call_contexts := mapUpdate
                    (mapUpdate (evictIdlePrev s (some cb.call_context_id))
                      cb.call_context_id resetOutcome)
                    cb.call_context_id
                    (fun c => { c with pending_calls := c.pending_calls - 1 })
                  entered_call_context := some cb.call_context_id },
          Except.ok cb.call_context_id)) := by
  cases hcb : mapGet s.callbacks k with
  | none =>
    left
    exact ⟨rfl, by simp [executeReplyCallback, hcb]⟩
  | some cb =>
    right
    have hcongr : evictIdlePrev { s with callbacks := mapDelete s.callbacks k }
        = evictIdlePrev s := by
      funext t
      exact evictIdlePrev_congr _ s t rfl rfl
    cases hctx : mapGet s.call_contexts cb.call_context_id with
    | none =>
      left
      refine ⟨cb, rfl, hctx, ?_⟩
      simp only [executeReplyCallback, hcb, hctx, enter_none_fst]
      rw [hcongr]
    | some ctx =>
      right
      refine ⟨cb, ctx, rfl, hctx, ?_⟩
      simp only [executeReplyCallback, hcb, hctx, enter_some_fst]
      rw [hcongr]

theorem executeRejectCallback_eq_reply (s : EngineState) (k : Nat) :
    executeRejectCallback s k = executeReplyCallback s k := rfl

theorem createCallback_shape (s : EngineState) :
    (s.entered_call_context = none ∧
      createCallback s = (s, Except.error EngineError.noActiveContext)) ∨
    (∃ eid, s.entered_call_context = some eid ∧
      findFreeFrom (mapSet s.callbacks s.callback_id ⟨eid⟩) s.callback_id ID_SPACE = none ∧
      createCallback s = (s, Except.error EngineError.identifierSpaceExhausted)) ∨
    (∃ eid next, s.entered_call_context = some eid ∧
      findFreeFrom (mapSet s.callbacks s.callback_id ⟨eid⟩) s.callback_id ID_SPACE = some next ∧
      createCallback s =
        ({ s with callbacks := mapSet s.callbacks s.callback_id ⟨eid⟩
                  call_contexts := mapUpdate s.call_contexts eid
                    (fun c => { c with pending_calls := c.pending_calls + 1 })
                  callback_id := next },
          Except.ok s.callback_id)) := by
  cases he : s.entered_call_context with
  | none =>
    left
    exact ⟨rfl, by simp [createCallback, he]⟩
  | some eid =>
    right
    cases hf : findFreeFrom (mapSet s.callbacks s.callback_id ⟨eid⟩) s.callback_id ID_SPACE with
    | none =>
      left
      exact ⟨eid, rfl, hf, by simp [createCallback, he, hf]⟩
    | some next =>
      right
      exact ⟨eid, next, rfl, hf, by simp [createCallback, he, hf]⟩

theorem mapGet_of_mem_nodup {A : Type} (m : List (Nat × A)) (k : Nat) (v : A)
    (hnd : (m.map Prod.fst).Nodup) (hmem : (k, v) ∈ m) : mapGet m k = some v := by
  induction m with
  | nil => simp at hmem
  | cons p rest ih =>
    obtain ⟨k0, v0⟩ := p
    rw [List.map_cons, List.nodup_cons] at hnd
    rcases List.mem_cons.mp hmem with h1 | h1
    · rw [mapGet]
      cases h1
      simp
    · rw [mapGet]
      have hk : k0 ≠ k := by
        intro h2
        exact hnd.1 (h2 ▸ List.mem_map.mpr ⟨(k, v), h1, rfl⟩)
      rw [if_neg hk]
      exact ih hnd.2 h1

/-! ### Preservation of the invariant by every action -/

theorem engineInv_endpoint (s : EngineState) (hs : EngineInv s) :
    EngineInv (step s .callEndpoint) := by
  show EngineInv (executeEndpoint s).1
  rcases executeEndpoint_shape s with ⟨next, hf, heq⟩ | ⟨hf, heq⟩
  swap
  · rw [heq]
    exact hs
  rw [heq, enter_some_fst]
  set cur := s.call_context_id with hcur
  set newctx : CallContext := ⟨cur, none, none, 0⟩ with hnewctx
  set M1 := mapSet s.call_contexts cur newctx with hM1
  set s1 : EngineState :=
    { s with call_contexts := M1, call_context_id := next } with hs1
  set E := evictIdlePrev s1 (some cur) with hE
  have hM1cur : mapGet M1 cur = some newctx := mapGet_set_self _ _ _
  have hnext : mapGet M1 next = none := findFreeFrom_free _ _ _ _ hf
  have hEcur : mapGet E cur = some newctx := by
    rw [hE]
    have := evictIdlePrev_keeps_target s1 cur
    rw [this]
    exact hM1cur
  have howner_ne_cur : ∀ p ∈ s.callbacks, p.2.call_context_id ≠ cur := by
    intro p hp hpc
    exact hs.owner_alive p hp (by rw [hpc]; exact hs.cursor_free)
  have hM1_of_s : ∀ j, j ≠ cur → mapGet M1 j = mapGet s.call_contexts j := by
    intro j hj
    exact mapGet_set_ne _ _ _ _ hj
  have hE_some : ∀ j ctx, mapGet E j = some ctx → mapGet M1 j = some ctx := by
    intro j ctx hj
    rcases evictIdlePrev_cases s1 (some cur) with h1 | ⟨prev, prevCtx, _, _, _, _, h1⟩
    · rw [hE, h1] at hj
      exact hj
    · rw [hE, h1] at hj
      by_cases hjp : j = prev
      · subst hjp
        rw [mapGet_delete_self] at hj
        exact absurd hj (by simp)
      · rw [mapGet_delete_ne _ _ _ hjp] at hj
        exact hj
  have hcb_get : ∀ p ∈ s.callbacks, mapGet s.callbacks p.1 = some p.2 := by
    intro p hp
    exact mapGet_of_mem_nodup _ _ _ hs.cb_nodup (by rcases p with ⟨a, b⟩; exact hp)
  have howner_pending : ∀ p ∈ s.callbacks, ∀ ctx,
      mapGet s.call_contexts p.2.call_context_id = some ctx → ctx.pending_calls ≠ 0 := by
    intro p hp ctx hctx h0
    have hb := hs.pending_bound _ _ hctx
    have h1 := ownedCount_pos s.callbacks p.1 p.2 (hcb_get p hp)
    rw [h0] at hb
    omega
  have hE_alive : ∀ p ∈ s.callbacks, mapGet E p.2.call_context_id ≠ none := by
    intro p hp
    have ho := hs.owner_alive p hp
    have hoc := howner_ne_cur p hp
    have hM1o : mapGet M1 p.2.call_context_id ≠ none := by
      rw [hM1_of_s _ hoc]
      exact ho
    rcases evictIdlePrev_cases s1 (some cur) with h1 | ⟨prev, prevCtx, _, ht, hgp, hp0, h1⟩
    · rw [hE, h1]
      exact hM1o
    · rw [hE, h1]
      have hprev_ne : prev ≠ cur := fun h2 => ht (by rw [h2])
      by_cases hjp : p.2.call_context_id = prev
      · exfalso
        have hsp : mapGet s.call_contexts prev = some prevCtx := by
          rw [← hM1_of_s prev hprev_ne]
          exact hgp
        exact howner_pending p hp prevCtx (by rw [hjp]; exact hsp) hp0
      · rw [mapGet_delete_ne _ _ _ hjp]
        exact hM1o
  refine ⟨?_, ?_, ?_, ?_, ?_, ?_, ?_, ?_⟩
  · show mapGet (mapUpdate E cur resetOutcome) next = none
    refine (mapGet_update_none _ _ _ _).mpr ?_
    exact evictIdlePrev_none_mono s1 (some cur) next hnext
  · exact hs.cb_cursor_free
  · show ((mapUpdate E cur resetOutcome).map Prod.fst).Nodup
    rw [keys_mapUpdate]
    exact evictIdlePrev_nodup s1 (some cur) (nodup_mapSet _ _ _ hs.ctx_nodup)
  · exact hs.cb_nodup
  · intro c hc
    simp only [Option.some.injEq] at hc
    subst hc
    show mapGet (mapUpdate E cur resetOutcome) cur ≠ none
    rw [mapGet_update_self, hEcur]
    simp
  · intro p hp
    show mapGet (mapUpdate E cur resetOutcome) p.2.call_context_id ≠ none
    intro hcontra
    rw [mapGet_update_none] at hcontra
    exact hE_alive p hp hcontra
  · intro k ctx hk
    by_cases hkc : k = cur
    · subst hkc
      have hk2 : mapGet (mapUpdate E cur resetOutcome) cur = some ctx := hk
      rw [mapGet_update_self, hEcur] at hk2
      simp only [Option.map_some', Option.some.injEq] at hk2
      have hpend : ctx.pending_calls = 0 := by
        rw [← hk2]
        rfl
      have hcnt : ownedCount s.callbacks cur = 0 :=
        ownedCount_eq_zero_of _ _ (fun p hp => howner_ne_cur p hp)
      show ((ownedCount s.callbacks cur : Nat) : Int) ≤ ctx.pending_calls
      rw [hcnt, hpend]
      simp
    · have hk2 : mapGet (mapUpdate E cur resetOutcome) k = some ctx := hk
      rw [mapGet_update_ne _ _ _ _ hkc] at hk2
      have hk3 := hE_some k ctx hk2
      rw [hM1_of_s k hkc] at hk3
      exact hs.pending_bound k ctx hk3
  · intro h
    exact absurd h (by simp)

theorem mapGet_delete_none_mono {A : Type} (m : List (Nat × A)) (k j : Nat)
    (h : mapGet m j = none) : mapGet (mapDelete m k) j = none := by
  by_cases hj : j = k
  · subst hj
    exact mapGet_delete_self _ _
  · rw [mapGet_delete_ne _ _ _ hj]
    exact h

theorem evict_alive (s : EngineState) (t : Option Nat) (hs : EngineInv s)
    (p : Nat × Callback) (hp : p ∈ s.callbacks) :
    mapGet (evictIdlePrev s t) p.2.call_context_id ≠ none := by
  have hget : mapGet s.callbacks p.1 = some p.2 :=
    mapGet_of_mem_nodup _ _ _ hs.cb_nodup (by rcases p with ⟨a, b⟩; exact hp)
  have hpos := ownedCount_pos s.callbacks p.1 p.2 hget
  rcases evictIdlePrev_cases s t with h1 | ⟨prev, prevCtx, _, _, hgp, hp0, h1⟩
  · rw [h1]
    exact hs.owner_alive p hp
  · rw [h1]
    by_cases hop : p.2.call_context_id = prev
    · exfalso
      have hb := hs.pending_bound prev prevCtx hgp
      rw [← hop] at hb
      rw [hp0] at hb
      omega
    · rw [mapGet_delete_ne _ _ _ hop]
      exact hs.owner_alive p hp

theorem evictIdlePrev_some_inv (s : EngineState) (t : Option Nat) (j : Nat)
    (ctx : CallContext) (h : mapGet (evictIdlePrev s t) j = some ctx) :
    mapGet s.call_contexts j = some ctx := by
  rcases evictIdlePrev_cases s t with h1 | ⟨prev, prevCtx, _, _, _, _, h1⟩
  · rw [h1] at h
    exact h
  · rw [h1] at h
    by_cases hjp : j = prev
    · subst hjp
      rw [mapGet_delete_self] at h
      exact absurd h (by simp)
    · rw [mapGet_delete_ne _ _ _ hjp] at h
      exact h

theorem engineInv_settle_update (s : EngineState) (hs : EngineInv s) (c : Nat)
    (he : s.entered_call_context = some c) (f : CallContext → CallContext)
    (hf : ∀ ctx, (f ctx).pending_calls = ctx.pending_calls) :
    EngineInv { s with call_contexts := mapUpdate s.call_contexts c f } := by
  refine ⟨?_, ?_, ?_, ?_, ?_, ?_, ?_, ?_⟩
  · show mapGet (mapUpdate s.call_contexts c f) s.call_context_id = none
    exact (mapGet_update_none _ _ _ _).mpr hs.cursor_free
  · exact hs.cb_cursor_free
  · show ((mapUpdate s.call_contexts c f).map Prod.fst).Nodup
    rw [keys_mapUpdate]
    exact hs.ctx_nodup
  · exact hs.cb_nodup
  · intro c' hc'
    show mapGet (mapUpdate s.call_contexts c f) c' ≠ none
    intro hcontra
    rw [mapGet_update_none] at hcontra
    exact hs.entered_in c' hc' hcontra
  · intro p hp
    show mapGet (mapUpdate s.call_contexts c f) p.2.call_context_id ≠ none
    intro hcontra
    rw [mapGet_update_none] at hcontra
    exact hs.owner_alive p hp hcontra
  · intro j ctx hj
    have hj2 : mapGet (mapUpdate s.call_contexts c f) j = some ctx := hj
    by_cases hjc : j = c
    · subst hjc
      rw [mapGet_update_self] at hj2
      cases hg : mapGet s.call_contexts j with
      | none =>
        rw [hg] at hj2
        exact absurd hj2 (by simp)
      | some ctx0 =>
        rw [hg] at hj2
        simp only [Option.map_some', Option.some.injEq] at hj2
        have hb := hs.pending_bound j ctx0 hg
        rw [← hj2, hf ctx0]
        exact hb
    · rw [mapGet_update_ne _ _ _ _ hjc] at hj2
      exact hs.pending_bound j ctx hj2
  · intro h
    have h2 : s.entered_call_context = none := h
    rw [he] at h2
    cases h2

theorem engineInv_settleOk (s : EngineState) (hs : EngineInv s) (v : Value) :
    EngineInv (step s (.settleResultOk v)) := by
  show EngineInv (settleReplied s v)
  cases he : s.entered_call_context with
  | none =>
    rw [settleReplied, he]
    exact hs
  | some c =>
    simp only [settleReplied, he]
    have h2 := engineInv_settle_update s hs c he
      (fun ctx => { ctx with replied := some v }) (fun ctx => rfl)
    rwa [he] at h2

theorem engineInv_settleErr (s : EngineState) (hs : EngineInv s) (v : Value) :
    EngineInv (step s (.settleResultErr v)) := by
  show EngineInv (settleRejected s v)
  cases he : s.entered_call_context with
  | none =>
    rw [settleRejected, he]
    exact hs
  | some c =>
    simp only [settleRejected, he]
    have h2 := engineInv_settle_update s hs c he
      (fun ctx => { ctx with rejected := some v }) (fun ctx => rfl)
    rwa [he] at h2

theorem engineInv_deliverReply (s : EngineState) (hs : EngineInv s) (k : Nat) :
    EngineInv (step s (.deliverReply k)) := by
  show EngineInv (executeReplyCallback s k).1
  rcases executeReplyCallback_shape s k with ⟨hcb, heq⟩ | ⟨cb, hcb, hctx, heq⟩ | ⟨cb, ctx, hcb, hctx, heq⟩
  · rw [heq]
    exact hs
  · exact absurd hctx (hs.owner_alive (k, cb) (mapGet_some_mem _ _ _ hcb))
  · rw [heq]
    set o := cb.call_context_id with ho
    set E := evictIdlePrev s (some o) with hE
    set U1 := mapUpdate E o resetOutcome with hU1
    set D := mapDelete s.callbacks k with hD
    have hEo : mapGet E o = some ctx := by
      rw [hE, evictIdlePrev_keeps_target]
      exact hctx
    have hcount : ownedCount s.callbacks o
        = ownedCount D o + 1 := by
      have h2 := ownedCount_delete_get s.callbacks k cb o hs.cb_nodup hcb
      rw [if_pos rfl] at h2
      exact h2
    refine ⟨?_, ?_, ?_, ?_, ?_, ?_, ?_, ?_⟩
    · show mapGet (mapUpdate U1 o (fun c => { c with pending_calls := c.pending_calls - 1 })) s.call_context_id = none
      refine (mapGet_update_none _ _ _ _).mpr ?_
      rw [hU1]
      refine (mapGet_update_none _ _ _ _).mpr ?_
      rw [hE]
      exact evictIdlePrev_none_mono s (some o) _ hs.cursor_free
    · show mapGet D s.callback_id = none
      exact mapGet_delete_none_mono _ _ _ hs.cb_cursor_free
    · show ((mapUpdate U1 o (fun c => { c with pending_calls := c.pending_calls - 1 })).map Prod.fst).Nodup
      rw [keys_mapUpdate, hU1, keys_mapUpdate, hE]
      exact evictIdlePrev_nodup s (some o) hs.ctx_nodup
    · exact nodup_mapDelete _ _ hs.cb_nodup
    · intro c2 hc2
      simp only [Option.some.injEq] at hc2
      subst hc2
      show mapGet (mapUpdate U1 o (fun c => { c with pending_calls := c.pending_calls - 1 })) o ≠ none
      rw [mapGet_update_self, hU1, mapGet_update_self, hEo]
      simp
    · intro p hp
      show mapGet (mapUpdate U1 o (fun c => { c with pending_calls := c.pending_calls - 1 })) p.2.call_context_id ≠ none
      intro hcontra
      rw [mapGet_update_none, hU1, mapGet_update_none, hE] at hcontra
      exact evict_alive s (some o) hs p (mem_mapDelete _ _ _ hp) hcontra
    · intro j ctx' hj
      have hj2 : mapGet (mapUpdate U1 o (fun c => { c with pending_calls := c.pending_calls - 1 })) j = some ctx' := hj
      by_cases hjo : j = o
      · subst hjo
        rw [mapGet_update_self, hU1, mapGet_update_self, hEo] at hj2
        simp only [Option.map_some', Option.some.injEq] at hj2
        have hb := hs.pending_bound o ctx hctx
        have hpend : ctx'.pending_calls = ctx.pending_calls - 1 := by
          rw [← hj2]
          rfl
        show ((ownedCount D o : Nat) : Int) ≤ ctx'.pending_calls
        rw [hpend]
        have := hcount
        omega
      · rw [mapGet_update_ne _ _ _ _ hjo, hU1, mapGet_update_ne _ _ _ _ hjo, hE] at hj2
        have hj3 := evictIdlePrev_some_inv s (some o) j ctx' hj2
        have hb := hs.pending_bound j ctx' hj3
        have hle := ownedCount_delete_le s.callbacks k j
        show ((ownedCount D j : Nat) : Int) ≤ ctx'.pending_calls
        have : (ownedCount D j : Int) ≤ (ownedCount s.callbacks j : Int) := by
          exact_mod_cast hle
        omega
    · intro h
      exact absurd h (by simp)

theorem engineInv_deliverReject (s : EngineState) (hs : EngineInv s) (k : Nat) :
    EngineInv (step s (.deliverReject k)) := by
  show EngineInv (executeRejectCallback s k).1
  rw [executeRejectCallback_eq_reply]
  exact engineInv_deliverReply s hs k

theorem engineInv_issueCall (s : EngineState) (hs : EngineInv s) :
    EngineInv (step s .issueCall) := by
  show EngineInv (createCallback s).1
  rcases createCallback_shape s with ⟨he, heq⟩ | ⟨eid, he, hf, heq⟩ | ⟨eid, next, he, hf, heq⟩
  · rw [heq]
    exact hs
  · rw [heq]
    exact hs
  · rw [heq]
    set CB := mapSet s.callbacks s.callback_id ⟨eid⟩ with hCB
    set inc : CallContext → CallContext := fun c => { c with pending_calls := c.pending_calls + 1 } with hinc
    refine ⟨?_, ?_, ?_, ?_, ?_, ?_, ?_, ?_⟩
    · show mapGet (mapUpdate s.call_contexts eid inc) s.call_context_id = none
      exact (mapGet_update_none _ _ _ _).mpr hs.cursor_free
    · show mapGet CB next = none
      exact findFreeFrom_free _ _ _ _ hf
    · show ((mapUpdate s.call_contexts eid inc).map Prod.fst).Nodup
      rw [keys_mapUpdate]
      exact hs.ctx_nodup
    · exact nodup_mapSet _ _ _ hs.cb_nodup
    · intro c' hc'
      have hc2 : s.entered_call_context = some c' := hc'
      rw [he] at hc2
      simp only [Option.some.injEq] at hc2
      subst hc2
      show mapGet (mapUpdate s.call_contexts eid inc) eid ≠ none
      intro hcontra
      rw [mapGet_update_none] at hcontra
      exact hs.entered_in eid he hcontra
    · intro p hp
      show mapGet (mapUpdate s.call_contexts eid inc) p.2.call_context_id ≠ none
      intro hcontra
      rw [mapGet_update_none] at hcontra
      rcases mem_mapSet _ _ _ _ hp with h1 | h1
      · exact hs.owner_alive p h1 hcontra
      · rw [h1] at hcontra
        exact hs.entered_in eid he hcontra
    · intro j ctx' hj
      have hj2 : mapGet (mapUpdate s.call_contexts eid inc) j = some ctx' := hj
      have hcount : ownedCount CB j
          = ownedCount s.callbacks j + (if eid = j then 1 else 0) := by
        rw [hCB]
        exact ownedCount_set_fresh s.callbacks s.callback_id ⟨eid⟩ j hs.cb_cursor_free
      by_cases hje : j = eid
      · subst hje
        rw [mapGet_update_self] at hj2
        cases hg : mapGet s.call_contexts j with
        | none =>
          rw [hg] at hj2
          exact absurd hj2 (by simp)
        | some ctx0 =>
          rw [hg] at hj2
          simp only [Option.map_some', Option.some.injEq] at hj2
          have hb := hs.pending_bound j ctx0 hg
          have hpend : ctx'.pending_calls = ctx0.pending_calls + 1 := by
            rw [← hj2]
          show ((ownedCount CB j : Nat) : Int) ≤ ctx'.pending_calls
          rw [hpend, hcount, if_pos rfl]
          push_cast
          omega
      · rw [mapGet_update_ne _ _ _ _ hje] at hj2
        have hb := hs.pending_bound j ctx' hj2
        show ((ownedCount CB j : Nat) : Int) ≤ ctx'.pending_calls
        rw [hcount, if_neg (fun h2 => hje h2.symm)]
        push_cast
        omega
    · intro h
      have h2 : s.entered_call_context = none := h
      rw [he] at h2
      cases h2

theorem engineInv_abandonCall (s : EngineState) (hs : EngineInv s) (k : Nat) :
    EngineInv (step s (.abandonCall k)) := by
  show EngineInv (removeCallback s k)
  refine ⟨?_, ?_, ?_, ?_, ?_, ?_, ?_, ?_⟩
  · exact hs.cursor_free
  · show mapGet (mapDelete s.callbacks k) s.callback_id = none
    exact mapGet_delete_none_mono _ _ _ hs.cb_cursor_free
  · exact hs.ctx_nodup
  · exact nodup_mapDelete _ _ hs.cb_nodup
  · intro c hc
    exact hs.entered_in c hc
  · intro p hp
    exact hs.owner_alive p (mem_mapDelete _ _ _ hp)
  · intro j ctx hj
    have hb := hs.pending_bound j ctx hj
    have hle := ownedCount_delete_le s.callbacks k j
    show ((ownedCount (mapDelete s.callbacks k) j : Nat) : Int) ≤ ctx.pending_calls
    have : (ownedCount (mapDelete s.callbacks k) j : Int) ≤ (ownedCount s.callbacks j : Int) := by
      exact_mod_cast hle
    omega
  · intro h
    have h2 : s.entered_call_context = none := h
    have h3 := hs.pristine h2
    subst h3
    rfl

theorem engineInv_step (s : EngineState) (hs : EngineInv s) (a : EngineAction) :
    EngineInv (step s a) := by
  cases a with
  | callEndpoint => exact engineInv_endpoint s hs
  | settleResultOk v => exact engineInv_settleOk s hs v
  | settleResultErr v => exact engineInv_settleErr s hs v
  | deliverReply k => exact engineInv_deliverReply s hs k
  | deliverReject k => exact engineInv_deliverReject s hs k
  | issueCall => exact engineInv_issueCall s hs
  | abandonCall k => exact engineInv_abandonCall s hs k

theorem reachable_inv (s : EngineState) (h : Reachable s) : EngineInv s := by
  induction h with
  | base => exact engineInv_init
  | next s a _ ih => exact engineInv_step s ih a

/-! ### Context removal only happens inside an eviction -/

theorem remove_via_endpoint (s : EngineState) (c : Nat)
    (hin : mapGet s.call_contexts c ≠ none)
    (hout : mapGet ((executeEndpoint s).1).call_contexts c = none) :
    s.entered_call_context = some c ∧
    (∃ ctx, mapGet s.call_contexts c = some ctx ∧ ctx.pending_calls = 0) ∧
    ∃ d, ((executeEndpoint s).1).entered_call_context = some d ∧ d ≠ c := by
  rcases executeEndpoint_shape s with ⟨next, hf, heq⟩ | ⟨hf, heq⟩
  swap
  · rw [heq] at hout
    exact absurd hout hin
  rw [heq] at hout ⊢
  rw [enter_some_fst] at hout ⊢
  set cur := s.call_context_id with hcur
  set newctx : CallContext := ⟨cur, none, none, 0⟩ with hnewctx
  set M1 := mapSet s.call_contexts cur newctx with hM1
  set s1 : EngineState :=
    { s with call_contexts := M1, call_context_id := next } with hs1
  have hout2 : mapGet (mapUpdate (evictIdlePrev s1 (some cur)) cur resetOutcome) c = none := hout
  rw [mapGet_update_none] at hout2
  have hM1c : mapGet M1 c ≠ none := by
    by_cases hc : c = cur
    · subst hc
      rw [hM1, mapGet_set_self]
      simp
    · rw [hM1, mapGet_set_ne _ _ _ _ hc]
      exact hin
  rcases evictIdlePrev_cases s1 (some cur) with h1 | ⟨prev, prevCtx, hpe, ht, hgp, hp0, h1⟩
  · rw [h1] at hout2
    exact absurd hout2 hM1c
  · rw [h1] at hout2
    by_cases hcp : c = prev
    · subst hcp
      have hprev_ne : c ≠ cur := by
        intro h2
        exact ht (by rw [h2])
      have hsc : mapGet s.call_contexts c = some prevCtx := by
        have : mapGet M1 c = some prevCtx := hgp
        rwa [hM1, mapGet_set_ne _ _ _ _ hprev_ne] at this
      refine ⟨hpe, ⟨prevCtx, hsc, hp0⟩, cur, rfl, ?_⟩
      exact fun h2 => hprev_ne h2.symm
    · rw [mapGet_delete_ne _ _ _ hcp] at hout2
      exact absurd hout2 hM1c

theorem remove_via_deliver (s : EngineState) (hs : EngineInv s) (k : Nat) (c : Nat)
    (hin : mapGet s.call_contexts c ≠ none)
    (hout : mapGet ((executeReplyCallback s k).1).call_contexts c = none) :
    s.entered_call_context = some c ∧
    (∃ ctx, mapGet s.call_contexts c = some ctx ∧ ctx.pending_calls = 0) ∧
    ∃ d, ((executeReplyCallback s k).1).entered_call_context = some d ∧ d ≠ c := by
  rcases executeReplyCallback_shape s k with ⟨hcb, heq⟩ | ⟨cb, hcb, hctx, heq⟩ | ⟨cb, ctx, hcb, hctx, heq⟩
  · rw [heq] at hout
    exact absurd hout hin
  · exact absurd hctx (hs.owner_alive (k, cb) (mapGet_some_mem _ _ _ hcb))
  · rw [heq] at hout ⊢
    set o := cb.call_context_id with ho
    have hout2 : mapGet (mapUpdate (mapUpdate (evictIdlePrev s (some o)) o resetOutcome) o
        (fun c => { c with pending_calls := c.pending_calls - 1 })) c = none := hout
    rw [mapGet_update_none, mapGet_update_none] at hout2
    rcases evictIdlePrev_cases s (some o) with h1 | ⟨prev, prevCtx, hpe, ht, hgp, hp0, h1⟩
    · rw [h1] at hout2
      exact absurd hout2 hin
    · rw [h1] at hout2
      by_cases hcp : c = prev
      · subst hcp
        refine ⟨hpe, ⟨prevCtx, hgp, hp0⟩, o, rfl, ?_⟩
        intro h2
        exact ht (by rw [h2])
      · rw [mapGet_delete_ne _ _ _ hcp] at hout2
        exact absurd hout2 hin

theorem step_remove_cases (s : EngineState) (hs : EngineInv s) (a : EngineAction) (c : Nat)
    (hin : mapGet s.call_contexts c ≠ none)
    (hout : mapGet (step s a).call_contexts c = none) :
    s.entered_call_context = some c ∧
    (∃ ctx, mapGet s.call_contexts c = some ctx ∧ ctx.pending_calls = 0) ∧
    ∃ d, (step s a).entered_call_context = some d ∧ d ≠ c := by
  cases a with
  | callEndpoint => exact remove_via_endpoint s c hin hout
  | deliverReply k => exact remove_via_deliver s hs k c hin hout
  | deliverReject k =>
    have h1 : step s (.deliverReject k) = (executeReplyCallback s k).1 := by
      show (executeRejectCallback s k).1 = _
      rw [executeRejectCallback_eq_reply]
    rw [h1] at hout ⊢
    exact remove_via_deliver s hs k c hin hout
  | settleResultOk v =>
    exfalso
    have h1 : step s (.settleResultOk v) = settleReplied s v := rfl
    rw [h1] at hout
    cases he : s.entered_call_context with
    | none =>
      rw [settleReplied, he] at hout
      exact hin hout
    | some c0 =>
      rw [settleReplied, he] at hout
      have h2 : mapGet (mapUpdate s.call_contexts c0
          (fun ctx => { ctx with replied := some v })) c = none := hout
      rw [mapGet_update_none] at h2
      exact hin h2
  | settleResultErr v =>
    exfalso
    have h1 : step s (.settleResultErr v) = settleRejected s v := rfl
    rw [h1] at hout
    cases he : s.entered_call_context with
    | none =>
      rw [settleRejected, he] at hout
      exact hin hout
    | some c0 =>
      rw [settleRejected, he] at hout
      have h2 : mapGet (mapUpdate s.call_contexts c0
          (fun ctx => { ctx with rejected := some v })) c = none := hout
      rw [mapGet_update_none] at h2
      exact hin h2
  | issueCall =>
    exfalso
    rcases createCallback_shape s with ⟨he, heq⟩ | ⟨eid, he, hf, heq⟩ | ⟨eid, next, he, hf, heq⟩
    · have h1 : step s .issueCall = s := by
        show (createCallback s).1 = s
        rw [heq]
      rw [h1] at hout
      exact hin hout
    · have h1 : step s .issueCall = s := by
        show (createCallback s).1 = s
        rw [heq]
      rw [h1] at hout
      exact hin hout
    · have h1 : mapGet (mapUpdate s.call_contexts eid
          (fun c => { c with pending_calls := c.pending_calls + 1 })) c = none := by
        have h2 : step s .issueCall = (createCallback s).1 := rfl
        rw [h2, heq] at hout
        exact hout
      rw [mapGet_update_none] at h1
      exact hin h1
  | abandonCall k =>
    exfalso
    exact hin hout

/-! ### The active pointer, once set, stays set -/

theorem step_entered_stays (s : EngineState) (hs : EngineInv s) (a : EngineAction)
    (h : s.entered_call_context ≠ none) : (step s a).entered_call_context ≠ none := by
  cases a with
  | callEndpoint =>
    rcases executeEndpoint_shape s with ⟨next, hf, heq⟩ | ⟨hf, heq⟩
    · show ((executeEndpoint s).1).entered_call_context ≠ none
      rw [heq, enter_some_fst]
      simp
    · show ((executeEndpoint s).1).entered_call_context ≠ none
      rw [heq]
      exact h
  | settleResultOk v =>
    show (settleReplied s v).entered_call_context ≠ none
    cases he : s.entered_call_context with
    | none => exact absurd he h
    | some c =>
      rw [settleReplied, he]
      simp [he]
  | settleResultErr v =>
    show (settleRejected s v).entered_call_context ≠ none
    cases he : s.entered_call_context with
    | none => exact absurd he h
    | some c =>
      rw [settleRejected, he]
      simp [he]
  | deliverReply k =>
    show ((executeReplyCallback s k).1).entered_call_context ≠ none
    rcases executeReplyCallback_shape s k with ⟨hcb, heq⟩ | ⟨cb, hcb, hctx, heq⟩ | ⟨cb, ctx, hcb, hctx, heq⟩
    · rw [heq]
      exact h
    · exact absurd hctx (hs.owner_alive (k, cb) (mapGet_some_mem _ _ _ hcb))
    · rw [heq]
      simp
  | deliverReject k =>
    show ((executeRejectCallback s k).1).entered_call_context ≠ none
    rw [executeRejectCallback_eq_reply]
    rcases executeReplyCallback_shape s k with ⟨hcb, heq⟩ | ⟨cb, hcb, hctx, heq⟩ | ⟨cb, ctx, hcb, hctx, heq⟩
    · rw [heq]
      exact h
    · exact absurd hctx (hs.owner_alive (k, cb) (mapGet_some_mem _ _ _ hcb))
    · rw [heq]
      simp
  | issueCall =>
    show ((createCallback s).1).entered_call_context ≠ none
    rcases createCallback_shape s with ⟨he, heq⟩ | ⟨eid, he, hf, heq⟩ | ⟨eid, next, he, hf, heq⟩
    · rw [heq]
      exact h
    · rw [heq]
      exact h
    · rw [heq]
      show s.entered_call_context ≠ none
      exact h
  | abandonCall k =>
    show (removeCallback s k).entered_call_context ≠ none
    exact h

theorem evictIdlePrev_eq_delete (s : EngineState) (t : Option Nat) (prev : Nat)
    (prevCtx : CallContext) (hpe : s.entered_call_context = some prev)
    (ht : t ≠ some prev) (hg : mapGet s.call_contexts prev = some prevCtx)
    (hp : prevCtx.pending_calls = 0) :
    evictIdlePrev s t = mapDelete s.call_contexts prev := by
  unfold evictIdlePrev
  simp only [hpe, hg]
  rw [if_pos ht, if_pos hp]

/-! ### Claims -/

/-- Claim C1: across every entry-point action on a reachable state, a call
context present before the step and absent after it must have been the
previously active context, with `pending_calls = 0`, and the step entered
a different context: eviction happens only inside a context switch, never
for the active context, never with pending calls. -/
theorem claim1_removal_only_on_switch (s : EngineState) (hs : Reachable s)
    (a : EngineAction) (c : Nat)
    (hin : mapGet s.call_contexts c ≠ none)
    (hout : mapGet (step s a).call_contexts c = none) :
    s.entered_call_context = some c ∧
    (∃ ctx, mapGet s.call_contexts c = some ctx ∧ ctx.pending_calls = 0) ∧
    ∃ d, (step s a).entered_call_context = some d ∧ d ≠ c :=
  step_remove_cases s (reachable_inv s hs) a c hin hout

/-- Witness for C1: the context created by the first `executeEndpoint` is
removed by the second one, and indeed it was the active idle context and a
different context became active. -/
theorem claim1_removal_only_on_switch_witness :
    (step initState EngineAction.callEndpoint).entered_call_context = some 0 ∧
    (∃ ctx, mapGet (step initState EngineAction.callEndpoint).call_contexts 0 = some ctx ∧
      ctx.pending_calls = 0) ∧
    ∃ d, (step (step initState EngineAction.callEndpoint) EngineAction.callEndpoint).entered_call_context = some d ∧ d ≠ 0 :=
  claim1_removal_only_on_switch (step initState EngineAction.callEndpoint)
    (Reachable.next initState EngineAction.callEndpoint Reachable.base)
    EngineAction.callEndpoint 0 (by decide) (by decide)

/-- Claim C3: delivering a reply or reject for a continuation id that is
not registered fails with the unknown-continuation error (the TypeError
the source throws at `callback.call_context_id`), surfaced to the caller,
and returns the state completely unchanged: both registries, both id
cursors and the active-context pointer. -/
theorem claim3_unknown_continuation (s : EngineState) (k : Nat)
    (h : mapGet s.callbacks k = none) :
    executeReplyCallback s k = (s, Except.error EngineError.unknownContinuation) ∧
    executeRejectCallback s k = (s, Except.error EngineError.unknownContinuation) := by
  have h1 : executeReplyCallback s k = (s, Except.error EngineError.unknownContinuation) := by
    rcases executeReplyCallback_shape s k with ⟨_, heq⟩ | ⟨cb, hcb, _, _⟩ | ⟨cb, ctx, hcb, _, _⟩
    · exact heq
    · rw [h] at hcb
      cases hcb
    · rw [h] at hcb
      cases hcb
  exact ⟨h1, by rw [executeRejectCallback_eq_reply]; exact h1⟩

/-- Witness for C3 at the initial state with id 5. -/
theorem claim3_unknown_continuation_witness :
    executeReplyCallback initState 5 = (initState, Except.error EngineError.unknownContinuation) ∧
    executeRejectCallback initState 5 = (initState, Except.error EngineError.unknownContinuation) :=
  claim3_unknown_continuation initState 5 rfl

/-- Claim C5: whenever a registered continuation is settled successfully
through `executeReplyCallback` or `executeRejectCallback`, the owner
context recorded in the callback becomes the active context, and the
entry point returns that owner.  In the embedding the stored handler is
invoked as the very last action of the entry point, after the final state
shown here is reached and without changing engine state, so the active
context at the moment the handler runs is exactly the owner. -/
theorem claim5_settlement_activates_owner (s : EngineState) (k : Nat) (ret : Nat) :
    ((executeReplyCallback s k).2 = Except.ok ret →
      ∃ cb, mapGet s.callbacks k = some cb ∧ ret = cb.call_context_id ∧
        ((executeReplyCallback s k).1).entered_call_context = some cb.call_context_id) ∧
    ((executeRejectCallback s k).2 = Except.ok ret →
      ∃ cb, mapGet s.callbacks k = some cb ∧ ret = cb.call_context_id ∧
        ((executeRejectCallback s k).1).entered_call_context = some cb.call_context_id) := by
  have h1 : (executeReplyCallback s k).2 = Except.ok ret →
      ∃ cb, mapGet s.callbacks k = some cb ∧ ret = cb.call_context_id ∧
        ((executeReplyCallback s k).1).entered_call_context = some cb.call_context_id := by
    intro hr
    rcases executeReplyCallback_shape s k with ⟨_, heq⟩ | ⟨cb, hcb, hctx, heq⟩ | ⟨cb, ctx, hcb, hctx, heq⟩
    · rw [heq] at hr
      cases hr
    · rw [heq] at hr
      cases hr
    · rw [heq] at hr
      simp only [Option.some.injEq] at hr
      have hret : ret = cb.call_context_id := by
        cases hr
        rfl
      refine ⟨cb, hcb, hret, ?_⟩
      rw [heq]
  constructor
  · exact h1
  · rw [executeRejectCallback_eq_reply]
    exact h1

/-- Witness for C5: deliver the reply for callback 0 issued inside the
context created by the first endpoint call. -/
theorem claim5_settlement_activates_owner_witness :
    ∃ cb, mapGet (step (step initState EngineAction.callEndpoint) EngineAction.issueCall).callbacks 0 = some cb ∧
      (0 : Nat) = cb.call_context_id ∧
      ((executeReplyCallback (step (step initState EngineAction.callEndpoint) EngineAction.issueCall) 0).1).entered_call_context = some cb.call_context_id :=
  (claim5_settlement_activates_owner
    (step (step initState EngineAction.callEndpoint) EngineAction.issueCall) 0 0).1 (by decide)

/-- Claim C9: calling `createCallback` when no call context has been
entered fails immediately with the no-active-context error (the TypeError
at `entered_call_context.id`) and the state, both registries and cursors
included, is returned unchanged. -/
theorem claim9_no_active_context (s : EngineState)
    (h : s.entered_call_context = none) :
    createCallback s = (s, Except.error EngineError.noActiveContext) := by
  rcases createCallback_shape s with ⟨_, heq⟩ | ⟨eid, he, _, _⟩ | ⟨eid, _, he, _, _⟩
  · exact heq
  · rw [h] at he
    cases he
  · rw [h] at he
    cases he

/-- Witness for C9 at the initial state. -/
theorem claim9_no_active_context_witness :
    createCallback initState = (initState, Except.error EngineError.noActiveContext) :=
  claim9_no_active_context initState rfl

/-- Claim C10: on every reachable state, the active pointer is `none`
only in the pristine initial state (before the first `executeEndpoint`),
the context it designates is always present in the context registry
(regardless of its `pending_calls`), and no action ever clears it back to
`none` once set. -/
theorem claim10_active_pointer_persists (s : EngineState) (hs : Reachable s) :
    (getEnteredCallContext s = none → s = initState) ∧
    (∀ c, getEnteredCallContext s = some c → mapGet s.call_contexts c ≠ none) ∧
    (∀ a, getEnteredCallContext s ≠ none → getEnteredCallContext (step s a) ≠ none) := by
  have hInv := reachable_inv s hs
  exact ⟨hInv.pristine, hInv.entered_in,
    fun a h => step_entered_stays s hInv a h⟩

/-- Witness for C10: after one endpoint call the active context 0 is in
the registry with no pending calls, and abandoning an unknown callback
does not clear the pointer. -/
theorem claim10_active_pointer_persists_witness :
    mapGet (step initState EngineAction.callEndpoint).call_contexts 0 ≠ none ∧
    getEnteredCallContext (step (step initState EngineAction.callEndpoint) (EngineAction.abandonCall 0)) ≠ none := by
  constructor
  · exact (claim10_active_pointer_persists (step initState EngineAction.callEndpoint)
      (Reachable.next initState EngineAction.callEndpoint Reachable.base)).2.1 0 (by decide)
  · exact (claim10_active_pointer_persists (step initState EngineAction.callEndpoint)
      (Reachable.next initState EngineAction.callEndpoint Reachable.base)).2.2
      (EngineAction.abandonCall 0) (by decide)

/-- Claim C6: on every reachable state the keys of the context registry
are pairwise distinct, the allocation cursor is not a key of the registry,
and a successful `executeEndpoint` returns exactly that cursor as the new
context id — an id not used by any context registered at allocation time
— and registers it. -/
theorem claim6_context_ids_fresh (s : EngineState) (hs : Reachable s) :
    (s.call_contexts.map Prod.fst).Nodup ∧
    mapGet s.call_contexts s.call_context_id = none ∧
    ∀ cid, (executeEndpoint s).2 = Except.ok cid →
      cid = s.call_context_id ∧ mapGet s.call_contexts cid = none ∧
      mapGet ((executeEndpoint s).1).call_contexts cid ≠ none := by
  have hInv := reachable_inv s hs
  refine ⟨hInv.ctx_nodup, hInv.cursor_free, ?_⟩
  intro cid hok
  rcases executeEndpoint_shape s with ⟨next, hf, heq⟩ | ⟨hf, heq⟩
  swap
  · rw [heq] at hok
    cases hok
  have hcid : cid = s.call_context_id := by
    rw [heq] at hok
    simp only [Option.some.injEq] at hok
    cases hok
    rfl
  subst hcid
  refine ⟨rfl, hInv.cursor_free, ?_⟩
  rw [heq, enter_some_fst]
  set cur := s.call_context_id with hcur
  set newctx : CallContext := ⟨cur, none, none, 0⟩ with hnewctx
  set s1 : EngineState :=
    { s with call_contexts := mapSet s.call_contexts cur newctx, call_context_id := next } with hs1
  show mapGet (mapUpdate (evictIdlePrev s1 (some cur)) cur resetOutcome) cur ≠ none
  rw [mapGet_update_self]
  have h1 : mapGet (evictIdlePrev s1 (some cur)) cur = some newctx := by
    rw [evictIdlePrev_keeps_target]
    exact mapGet_set_self _ _ _
  rw [h1]
  simp

/-- Witness for C6 at the initial state. -/
theorem claim6_context_ids_fresh_witness :
    mapGet initState.call_contexts initState.call_context_id = none ∧
    mapGet ((executeEndpoint initState).1).call_contexts 0 ≠ none := by
  constructor
  · exact (claim6_context_ids_fresh initState Reachable.base).2.1
  · exact ((claim6_context_ids_fresh initState Reachable.base).2.2 0 (by decide)).2.2

/-- Claim C8: if `executeEndpoint` succeeds and the method immediately
returns the plain value 42 without issuing an outgoing call — so the only
engine effect after the entry point is the settlement job writing 42 —
then the returned context holds `replied = 42`, `rejected` unset,
`pending_calls = 0` once control is back with the host, and entering any
other context next evicts it from the registry. -/
theorem claim8_immediate_value_settles (s : EngineState) (hs : Reachable s) (cid : Nat)
    (hok : (executeEndpoint s).2 = Except.ok cid) :
    mapGet (settleReplied (executeEndpoint s).1 42).call_contexts cid
      = some ⟨cid, some 42, none, 0⟩ ∧
    ∀ c, c ≠ cid →
      mapGet ((enterCallContext (settleReplied (executeEndpoint s).1 42) (some c)).1).call_contexts cid = none := by
  rcases executeEndpoint_shape s with ⟨next, hf, heq⟩ | ⟨hf, heq⟩
  swap
  · rw [heq] at hok
    cases hok
  have hcid : cid = s.call_context_id := by
    rw [heq] at hok
    simp only [Option.some.injEq] at hok
    cases hok
    rfl
  subst hcid
  set cur := s.call_context_id with hcur
  set newctx : CallContext := ⟨cur, none, none, 0⟩ with hnewctx
  rw [heq, enter_some_fst]
  set s1 : EngineState :=
    { s with call_contexts := mapSet s.call_contexts cur newctx, call_context_id := next } with hs1
  set E := evictIdlePrev s1 (some cur) with hE
  set F := mapUpdate E cur resetOutcome with hF
  set R1 : EngineState := { s1 with call_contexts := F, entered_call_context := some cur } with hR1
  have hFcur : mapGet F cur = some newctx := by
    rw [hF, mapGet_update_self, hE, evictIdlePrev_keeps_target]
    have h2 : mapGet s1.call_contexts cur = some newctx := mapGet_set_self _ _ _
    rw [h2]
    rfl
  have hsettle : settleReplied R1 42 =
      { R1 with call_contexts := mapUpdate F cur (fun ctx => { ctx with replied := some 42 }) } := rfl
  rw [hsettle]
  have hG : mapGet (mapUpdate F cur (fun ctx => { ctx with replied := some (42 : Value) })) cur
      = some ⟨cur, some 42, none, 0⟩ := by
    rw [mapGet_update_self, hFcur]
    rfl
  refine ⟨hG, ?_⟩
  intro c hc
  set S2 : EngineState :=
    { R1 with call_contexts := mapUpdate F cur (fun ctx => { ctx with replied := some 42 }) } with hS2
  rw [enter_some_fst]
  show mapGet (mapUpdate (evictIdlePrev S2 (some c)) c resetOutcome) cur = none
  have hev : evictIdlePrev S2 (some c) = mapDelete S2.call_contexts cur := by
    refine evictIdlePrev_eq_delete S2 (some c) cur ⟨cur, some 42, none, 0⟩ rfl ?_ hG rfl
    intro h2
    simp only [Option.some.injEq] at h2
    exact hc h2
  rw [hev]
  rw [mapGet_update_ne _ _ _ _ (Ne.symm hc)]
  exact mapGet_delete_self _ _

/-- Witness for C8 from the initial state. -/
theorem claim8_immediate_value_settles_witness :
    mapGet (settleReplied (executeEndpoint initState).1 42).call_contexts 0
      = some ⟨0, some 42, none, 0⟩ ∧
    mapGet ((enterCallContext (settleReplied (executeEndpoint initState).1 42) (some 7)).1).call_contexts 0 = none := by
  have h := claim8_immediate_value_settles initState Reachable.base 0 (by decide)
  exact ⟨h.1, h.2 7 (by decide)⟩

/-- Counterexample to Claim C2 as stated: issue one outgoing call inside
the context created by an endpoint call (so `pending_calls = 1`), then
remove the callback with `removeCallback`.  The callback registry entry is
gone, but the owner's `pending_calls` is still 1 — `removeCallback` does
not decrease it by 1 as the claim asserts. -/
theorem claim2_counterexample :
    (mapGet (step (step initState EngineAction.callEndpoint) EngineAction.issueCall).call_contexts 0).map CallContext.pending_calls = some 1 ∧
    mapGet (removeCallback (step (step initState EngineAction.callEndpoint) EngineAction.issueCall) 0).callbacks 0 = none ∧
    (mapGet (removeCallback (step (step initState EngineAction.callEndpoint) EngineAction.issueCall) 0).call_contexts 0).map CallContext.pending_calls = some 1 := by
  decide

/-- Claim C2 as amended: `createCallback` in an active context increases
that context's `pending_calls` by exactly 1, and a successful
`executeReplyCallback` or `executeRejectCallback` decreases the owner's
`pending_calls` by exactly 1; `removeCallback`, however, leaves every
context record — in particular every `pending_calls` — unchanged. -/
theorem claim2_pending_calls_accounting (s : EngineState) :
    (∀ eid ctx r, s.entered_call_context = some eid →
      mapGet s.call_contexts eid = some ctx →
      (createCallback s).2 = Except.ok r →
      ∃ ctx1, mapGet ((createCallback s).1).call_contexts eid = some ctx1 ∧
        ctx1.pending_calls = ctx.pending_calls + 1) ∧
    (∀ k cb ctx, mapGet s.callbacks k = some cb →
      mapGet s.call_contexts cb.call_context_id = some ctx →
      ∃ ctx1, mapGet ((executeReplyCallback s k).1).call_contexts cb.call_context_id = some ctx1 ∧
        ctx1.pending_calls = ctx.pending_calls - 1) ∧
    (∀ k cb ctx, mapGet s.callbacks k = some cb →
      mapGet s.call_contexts cb.call_context_id = some ctx →
      ∃ ctx1, mapGet ((executeRejectCallback s k).1).call_contexts cb.call_context_id = some ctx1 ∧
        ctx1.pending_calls = ctx.pending_calls - 1) ∧
    (∀ k j, mapGet (removeCallback s k).call_contexts j = mapGet s.call_contexts j) := by
  have hreply : ∀ k cb ctx, mapGet s.callbacks k = some cb →
      mapGet s.call_contexts cb.call_context_id = some ctx →
      ∃ ctx1, mapGet ((executeReplyCallback s k).1).call_contexts cb.call_context_id = some ctx1 ∧
        ctx1.pending_calls = ctx.pending_calls - 1 := by
    intro k cb ctx hcb hctx
    rcases executeReplyCallback_shape s k with ⟨hcb2, _⟩ | ⟨cb2, hcb2, hctx2, _⟩ | ⟨cb2, ctx2, hcb2, hctx2, heq⟩
    · rw [hcb] at hcb2
      cases hcb2
    · rw [hcb] at hcb2
      simp only [Option.some.injEq] at hcb2
      subst hcb2
      rw [hctx] at hctx2
      cases hctx2
    · rw [hcb] at hcb2
      simp only [Option.some.injEq] at hcb2
      subst hcb2
      rw [hctx] at hctx2
      simp only [Option.some.injEq] at hctx2
      subst hctx2
      rw [heq]
      set o := cb.call_context_id with ho
      refine ⟨⟨(resetOutcome ctx).id, (resetOutcome ctx).replied, (resetOutcome ctx).rejected, ctx.pending_calls - 1⟩, ?_, rfl⟩
      show mapGet (mapUpdate (mapUpdate (evictIdlePrev s (some o)) o resetOutcome) o
        (fun c => { c with pending_calls := c.pending_calls - 1 })) o = _
      rw [mapGet_update_self, mapGet_update_self]
      have h1 : mapGet (evictIdlePrev s (some o)) o = some ctx := by
        rw [evictIdlePrev_keeps_target]
        exact hctx
      rw [h1]
      rfl
  refine ⟨?_, hreply, ?_, ?_⟩
  · intro eid ctx r he hctx hok
    rcases createCallback_shape s with ⟨he2, _⟩ | ⟨eid2, he2, hf2, heq⟩ | ⟨eid2, next, he2, hf2, heq⟩
    · rw [he] at he2
      cases he2
    · rw [heq] at hok
      cases hok
    · rw [he] at he2
      simp only [Option.some.injEq] at he2
      subst he2
      rw [heq]
      refine ⟨⟨ctx.id, ctx.replied, ctx.rejected, ctx.pending_calls + 1⟩, ?_, rfl⟩
      show mapGet (mapUpdate s.call_contexts eid
        (fun c => { c with pending_calls := c.pending_calls + 1 })) eid = _
      rw [mapGet_update_self, hctx]
      rfl
  · intro k cb ctx hcb hctx
    rw [executeRejectCallback_eq_reply]
    exact hreply k cb ctx hcb hctx
  · intro k j
    rfl

/-- Witness for the amended C2: with one issued call, `createCallback`
takes `pending_calls` from 0 to 1 and a delivered reply takes it from 1
back to 0. -/
theorem claim2_pending_calls_accounting_witness :
    (∃ ctx1, mapGet ((createCallback (step initState EngineAction.callEndpoint)).1).call_contexts 0 = some ctx1 ∧
      ctx1.pending_calls = 1) ∧
    (∃ ctx1, mapGet ((executeReplyCallback (step (step initState EngineAction.callEndpoint) EngineAction.issueCall) 0).1).call_contexts 0 = some ctx1 ∧
      ctx1.pending_calls = 0) := by
  constructor
  · obtain ⟨ctx1, h1, h2⟩ :=
      (claim2_pending_calls_accounting (step initState EngineAction.callEndpoint)).1
        0 ⟨0, none, none, 0⟩ 0 (by decide) (by decide) (by decide)
    refine ⟨ctx1, h1, ?_⟩
    rw [h2]
    decide
  · obtain ⟨ctx1, h1, h2⟩ :=
      (claim2_pending_calls_accounting (step (step initState EngineAction.callEndpoint) EngineAction.issueCall)).2.1
        0 ⟨0⟩ ⟨0, none, none, 1⟩ (by decide) (by decide)
    refine ⟨ctx1, h1, ?_⟩
    rw [h2]
    decide

/-- Counterexample to Claim C4 as stated: create a context, issue an
outgoing call from it, let the endpoint's settlement job record
`replied = 7`; the later delivery of the outgoing call's reply re-enters
the same context and clears the already-set outcome back to `null`. -/
theorem claim4_counterexample :
    (mapGet (step (step (step initState EngineAction.callEndpoint) EngineAction.issueCall) (EngineAction.settleResultOk 7)).call_contexts 0).map CallContext.replied = some (some 7) ∧
    (mapGet (step (step (step (step initState EngineAction.callEndpoint) EngineAction.issueCall) (EngineAction.settleResultOk 7)) (EngineAction.deliverReply 0)).call_contexts 0).map CallContext.replied = some none := by
  decide

/-- Claim C4 as amended: entering a context — on creation and on every
re-entry triggered by a delivery — unconditionally resets its outcome
fields (`replied`, `rejected`) to `null`, so an already-recorded outcome
is cleared whenever the context is entered again; only a settlement that
happens after the last entry of the context persists. -/
theorem claim4_outcome_reset_on_enter (s : EngineState) (c : Nat) (ctx : CallContext)
    (h : mapGet ((enterCallContext s (some c)).1).call_contexts c = some ctx) :
    ctx.replied = none ∧ ctx.rejected = none := by
  rw [enter_some_fst] at h
  have h2 : mapGet (mapUpdate (evictIdlePrev s (some c)) c resetOutcome) c = some ctx := h
  rw [mapGet_update_self] at h2
  cases hg : mapGet (evictIdlePrev s (some c)) c with
  | none =>
    rw [hg] at h2
    cases h2
  | some x =>
    rw [hg] at h2
    simp only [Option.map_some', Option.some.injEq] at h2
    rw [← h2]
    exact ⟨rfl, rfl⟩

/-- Witness for the amended C4: re-entering context 0 after its outcome
was set to 7 yields cleared outcome fields. -/
theorem claim4_outcome_reset_on_enter_witness :
    ∃ ctx, mapGet ((enterCallContext (step (step (step initState EngineAction.callEndpoint) EngineAction.issueCall) (EngineAction.settleResultOk 7)) (some 0)).1).call_contexts 0 = some ctx ∧
      ctx.replied = none ∧ ctx.rejected = none := by
  refine ⟨⟨0, none, none, 1⟩, by decide, ?_⟩
  exact claim4_outcome_reset_on_enter
    (step (step (step initState EngineAction.callEndpoint) EngineAction.issueCall) (EngineAction.settleResultOk 7))
    0 ⟨0, none, none, 1⟩ (by decide)

/-! ### The identifier-reuse scenario -/

theorem land_mask_of_le (n : Nat) (h : n ≤ MAX_ID_MASK) : n &&& MAX_ID_MASK = n := by
  have h2 : MAX_ID_MASK = 2 ^ 31 - 1 := by norm_num [MAX_ID_MASK]
  rw [h2] at h ⊢
  rw [Nat.and_pow_two_sub_one_eq_mod]
  exact Nat.mod_eq_of_lt (by omega)

theorem findFreeFrom_found {A : Type} (m : List (Nat × A)) (cur fuel : Nat)
    (h0 : 0 < fuel) (h : mapGet m ((cur + 1) &&& MAX_ID_MASK) = none) :
    findFreeFrom m cur fuel = some ((cur + 1) &&& MAX_ID_MASK) := by
  cases fuel with
  | zero => omega
  | succ n => simp [findFreeFrom, h]

theorem mapGet_append_none {A : Type} (m1 m2 : List (Nat × A)) (k : Nat)
    (h : mapGet m1 k = none) : mapGet (m1 ++ m2) k = mapGet m2 k := by
  induction m1 with
  | nil => rfl
  | cons p rest ih =>
    obtain ⟨k0, v0⟩ := p
    rw [mapGet] at h
    by_cases hk : k0 = k
    · simp [hk] at h
    · rw [if_neg hk] at h
      rw [List.cons_append, mapGet, if_neg hk]
      exact ih h

theorem mapGet_append_some {A : Type} (m1 m2 : List (Nat × A)) (k : Nat) (v : A)
    (h : mapGet m1 k = some v) : mapGet (m1 ++ m2) k = some v := by
  induction m1 with
  | nil => simp [mapGet] at h
  | cons p rest ih =>
    obtain ⟨k0, v0⟩ := p
    rw [mapGet] at h
    by_cases hk : k0 = k
    · rw [if_pos hk] at h
      rw [List.cons_append, mapGet, if_pos hk]
      exact h
    · rw [if_neg hk] at h
      rw [List.cons_append, mapGet, if_neg hk]
      exact ih h

theorem cbRun_succ (base n : Nat) :
    cbRun base (n + 1) = cbRun base n ++ [(base + n, ⟨0⟩)] := by
  simp [cbRun, List.range_succ]

theorem mapGet_cbRun (base n j : Nat) :
    mapGet (cbRun base n) j = if base ≤ j ∧ j < base + n then some ⟨0⟩ else none := by
  induction n with
  | zero =>
    have h0 : cbRun base 0 = [] := by simp [cbRun]
    rw [h0, if_neg (by omega)]
    rfl
  | succ n ih =>
    rw [cbRun_succ]
    by_cases hj : base ≤ j ∧ j < base + n
    · have hsome : mapGet (cbRun base n) j = some ⟨0⟩ := by rw [ih, if_pos hj]
      rw [mapGet_append_some _ _ _ _ hsome, if_pos (by omega)]
    · have hnone : mapGet (cbRun base n) j = none := by rw [ih, if_neg hj]
      rw [mapGet_append_none _ _ _ hnone]
      by_cases hj2 : j = base + n
      · subst hj2
        rw [if_pos (by omega), mapGet, if_pos rfl]
      · rw [if_neg (by omega), mapGet, if_neg (fun h2 => hj2 h2.symm)]
        rfl

theorem mapDelete_cbRun_last (base m : Nat) :
    mapDelete (cbRun base (m + 1)) (base + m) = cbRun base m := by
  rw [cbRun_succ]
  show (cbRun base m ++ [(base + m, (⟨0⟩ : Callback))]).filter (fun p => p.1 != (base + m)) = cbRun base m
  rw [List.filter_append]
  have h2 : (cbRun base m).filter (fun p => p.1 != (base + m)) = cbRun base m := by
    refine List.filter_eq_self.mpr ?_
    intro p hp
    obtain ⟨i, hi, hp2⟩ := List.mem_map.mp hp
    have hlt : i < m := List.mem_range.mp hi
    rw [← hp2]
    simp only [bne_iff_ne, ne_eq]
    omega
  have h3 : ([(base + m, (⟨0⟩ : Callback))]).filter (fun p => p.1 != (base + m)) = [] := by
    simp
  rw [h2, h3, List.append_nil]

theorem createCallback_run (b k : Nat) (pend : Int) (hbk : b + k + 1 ≤ MAX_ID_MASK) :
    createCallback ⟨1, [(0, ⟨0, none, none, pend⟩)], b + k, cbRun b k, some 0⟩ =
      (⟨1, [(0, ⟨0, none, none, pend + 1⟩)], b + k + 1, cbRun b (k + 1), some 0⟩,
        Except.ok (b + k)) := by
  have hset : mapSet (cbRun b k) (b + k) ⟨0⟩ = cbRun b (k + 1) := by
    rw [mapSet_eq_append]
    · rw [cbRun_succ]
    · rw [mapGet_cbRun, if_neg (by omega)]
  have hfree : findFreeFrom (cbRun b (k + 1)) (b + k) ID_SPACE = some (b + k + 1) := by
    have h1 : (b + k + 1) &&& MAX_ID_MASK = b + k + 1 := land_mask_of_le _ hbk
    have h2 : mapGet (cbRun b (k + 1)) ((b + k + 1) &&& MAX_ID_MASK) = none := by
      rw [h1, mapGet_cbRun, if_neg (by omega)]
    have h3 := findFreeFrom_found (cbRun b (k + 1)) (b + k) ID_SPACE
      (by norm_num [ID_SPACE, MAX_ID_MASK]) h2
    rw [h1] at h3
    exact h3
  simp only [createCallback, hset, hfree]
  simp [mapUpdate]

theorem c7alloc_eq (k : Nat) (hk : k ≤ MAX_ID_MASK) :
    c7alloc k = ⟨1, [(0, ⟨0, none, none, (k : Int)⟩)], k, cbRun 0 k, some 0⟩ := by
  induction k with
  | zero =>
    show step initState .callEndpoint = _
    decide
  | succ k ih =>
    have hk2 : k ≤ MAX_ID_MASK := by omega
    show step (c7alloc k) .issueCall = _
    rw [ih hk2]
    have hrun := createCallback_run 0 k (k : Int) (by omega)
    rw [Nat.zero_add] at hrun
    show (createCallback _).1 = _
    rw [hrun]
    have hcast : ((k : Int) + 1) = ((k + 1 : Nat) : Int) := by push_cast; ring
    rw [hcast]

theorem c7free_eq (N k : Nat) (hk : k ≤ N) (hN : N ≤ MAX_ID_MASK) :
    c7free N k = ⟨1, [(0, ⟨0, none, none, (N : Int)⟩)], N, cbRun 0 (N - k), some 0⟩ := by
  induction k with
  | zero =>
    show c7alloc N = _
    rw [c7alloc_eq N hN]
    simp
  | succ k ih =>
    have hk2 : k ≤ N := by omega
    show removeCallback (c7free N k) (N - (k + 1)) = _
    rw [ih hk2]
    have harith : N - k = (N - (k + 1)) + 1 := by omega
    have hdel := mapDelete_cbRun_last 0 (N - (k + 1))
    rw [Nat.zero_add] at hdel
    show (⟨1, [(0, ⟨0, none, none, (N : Int)⟩)], N,
      mapDelete (cbRun 0 (N - k)) (N - (k + 1)), some 0⟩ : EngineState) = _
    rw [harith, hdel]

theorem c7reall_eq (N k : Nat) (hk : k ≤ N) (hmask : 2 * N ≤ MAX_ID_MASK) :
    c7reall N k = ⟨1, [(0, ⟨0, none, none, ((N + k : Nat) : Int)⟩)], N + k, cbRun N k, some 0⟩ := by
  induction k with
  | zero =>
    show c7free N N = _
    rw [c7free_eq N N le_rfl (by omega)]
    have h1 : N - N = 0 := by omega
    rw [h1]
    have h2 : cbRun 0 0 = cbRun N 0 := by simp [cbRun]
    rw [h2]
    simp
  | succ k ih =>
    have hk2 : k ≤ N := by omega
    show (createCallback (c7reall N k)).1 = _
    rw [ih hk2]
    have hrun := createCallback_run N k ((N + k : Nat) : Int) (by omega)
    rw [hrun]
    have hcast : (((N + k : Nat) : Int) + 1) = ((N + (k + 1) : Nat) : Int) := by
      push_cast
      ring
    rw [hcast]
    rfl

/-- Counterexample to Claim C7 as stated: allocate callback id 0 from a
fresh allocator, free it, and allocate again — the allocator returns 1,
not 0: the freed identifiers are not reproduced. -/
theorem claim7_counterexample :
    (createCallback (c7free 1 1)).2 = Except.ok 1 ∧
    (createCallback (c7free 1 1)).2 ≠ Except.ok 0 := by
  decide

/-- Claim C7 as amended: starting from a fresh allocator, after
allocating callback ids `0..N-1` and freeing all of them, the next N
allocations return `N..2N-1` — the cursor continues past the freed ids
rather than reproducing `0..N-1`; a freed id would be handed out again
only once the cursor wraps around the 31-bit identifier space (hence the
bound `2N ≤ MAX_ID_MASK` keeping the scenario below the wraparound). -/
theorem claim7_allocator_continues_after_free (N k : Nat) (h1 : 0 < N) (h2 : k < N)
    (h3 : 2 * N ≤ MAX_ID_MASK) :
    (createCallback (c7reall N k)).2 = Except.ok (N + k) ∧ N + k ≠ k := by
  rw [c7reall_eq N k (le_of_lt h2) h3]
  have hrun := createCallback_run N k ((N + k : Nat) : Int) (by omega)
  rw [hrun]
  exact ⟨rfl, by omega⟩

/-- Witness for the amended C7 at `N = 1`, `k = 0`. -/
theorem claim7_allocator_continues_after_free_witness :
    (createCallback (c7reall 1 0)).2 = Except.ok (1 + 0) ∧ 1 + 0 ≠ 0 :=
  claim7_allocator_continues_after_free 1 0 (by decide) (by decide) (by decide)
